import Mathlib

/-!
# Verification of the APITools gateway core

Shallow embedding of the quota enforcer, route/alias gate, credential
rotation, provider dispatcher and Claude streaming translator of the
APITools repository, together with theorems settling the spec claims.

Conventions:
* JS numbers that the code only ever uses as integers (timestamps,
  counters, limits) are modelled as `Int`.
* JS objects used as string-keyed maps are modelled as association lists
  (`List (String × _)`) with first-match lookup, mirroring object key
  semantics.
* A stored field that may be `undefined` / `null` / `''` is modelled as
  `Option`; those three JS values are indistinguishable to every use in
  the embedded code paths, so collapsing them is a faithful quotient.
-/

/-- First-match lookup in an association list; the embedding of a JS
object property read `obj[key]`. -/
def alookup {α : Type} : List (String × α) → String → Option α
  | [], _ => none
  | (k', v) :: rest, k => if k' = k then some v else alookup rest k

/-- Stored per-model limit value: either the legacy bare number or the
object form with optional `total` / `period` / `periodLimit` / `expireAt`
fields (absent, `null` and `''` fields are `none`).
From `src/server/handlers/claude.js` and `openai.js`. -/
inductive StoredLimit : Type
  | num (n : Int)
  | obj (total : Option Int) (period : Option String)
      (periodLimit : Option Int) (expireAt : Option Int)
deriving DecidableEq, Repr

/-- Stored per-model usage value: legacy bare number or the object form.
From `src/server/handlers/claude.js` / `openai.js`. -/
inductive StoredUsage : Type
  | num (n : Int)
  | obj (totalUsed : Option Int) (periodUsed : Option Int) (lastReset : Option Int)
deriving DecidableEq, Repr

/-- Normalized usage entry (`normalizeUsageEntry`'s return shape). -/
structure UsageEntry where
  totalUsed : Int
  periodUsed : Int
  lastReset : Int
deriving DecidableEq, Repr

/-- Normalized limit entry (`normalizeLimitEntry`'s non-null return shape). -/
structure LimitEntry where
  total : Option Int
  period : Option String
  periodLimit : Option Int
  expireAt : Option Int
deriving DecidableEq, Repr

/-- `parseNonNegativeInt(value, fallback)` from `claude.js` lines 25-31 /
`openai.js` lines 30-36, restricted to integer inputs: a missing value or
a negative value yields the fallback (`Math.floor` is the identity on
integers, and `Number.isFinite` holds for every `Int`). -/
def parseNonNegativeInt (value : Option Int) (fallback : Option Int) : Option Int :=
  match value with
  | none => fallback
  | some n => if n < 0 then fallback else some n

/-- The three recognized period strings (`['daily','weekly','monthly']`). -/
def validPeriods : List String := ["daily", "weekly", "monthly"]

/-- `normalizeUsageEntry` from `claude.js` lines 60-73 / `openai.js`
lines 65-78: a bare number keeps its raw value as `totalUsed`; the object
form parses each field with fallback 0. -/
def normalizeUsageEntry : Option StoredUsage → UsageEntry
  | some (.num n) => ⟨n, 0, 0⟩
  | some (.obj t p l) =>
      ⟨(parseNonNegativeInt t (some 0)).getD 0,
       (parseNonNegativeInt p (some 0)).getD 0,
       (parseNonNegativeInt l (some 0)).getD 0⟩
  | none => ⟨0, 0, 0⟩

/-- `normalizeLimitEntry` from `claude.js` lines 80-103 / `openai.js`
lines 85-108. A bare number becomes `{total: n, period: null,
periodLimit: null, expireAt: null}` with the *raw* value; the object form
parses `total` / `expireAt` with fallback `null`, keeps `period` only if
it is one of the three valid strings, parses `periodLimit` only when a
valid period is present, and returns `null` when no constraint survived. -/
def normalizeLimitEntry : Option StoredLimit → Option LimitEntry
  | none => none
  | some (.num n) => some ⟨some n, none, none, none⟩
  | some (.obj t p pl e) =>
      let total := parseNonNegativeInt t none
      let period := match p with
        | some s => if s ∈ validPeriods then some s else none
        | none => none
      let periodLimit := if period.isSome then parseNonNegativeInt pl none else none
      let expireAt := parseNonNegativeInt e none
      if total = none ∧ periodLimit = none ∧ expireAt = none then none
      else some ⟨total, period, periodLimit, expireAt⟩

/-- The `expireAt` admission test of `consumeRoutingModelQuota`
(`claude.js` lines 127-133): `some e` when the configured expiry is in
the past (`Date.now() > expireAt`), `none` otherwise. -/
def expireRejected (now : Int) (lc : LimitEntry) : Option Int :=
  match lc.expireAt with
  | some e => if now > e then some e else none
  | none => none

/-- The period-rollover step of `consumeRoutingModelQuota` (`claude.js`
lines 135-143): only when both a period and a `periodLimit` are
configured and `lastReset` predates the current period's start is
`periodUsed` zeroed and `lastReset` advanced. `ps` maps a period name to
the current period's start instant (`getPeriodStartTimestamp`). -/
def rolloverUsage (ps : String → Int) (lc : LimitEntry) (u : UsageEntry) : UsageEntry :=
  match lc.period, lc.periodLimit with
  | some p, some _ => if u.lastReset < ps p then { u with periodUsed := 0, lastReset := ps p } else u
  | _, _ => u

/-- Outcome of the quota check, mirroring the distinct return objects of
`consumeRoutingModelQuota`. -/
inductive QuotaOutcome : Type
  | allowBare
  | allow (totalUsed : Int) (periodUsed : Int)
  | rejectExpired (expireAt : Int)
  | rejectTotal (totalLimit : Int) (totalUsed : Int)
  | rejectPeriod (period : String) (periodLimit : Int) (periodUsed : Int)
deriving DecidableEq, Repr

def QuotaOutcome.allowed : QuotaOutcome → Bool
  | .allowBare => true
  | .allow _ _ => true
  | _ => false

def QuotaOutcome.reason : QuotaOutcome → Option String
  | .allowBare => none
  | .allow _ _ => none
  | .rejectExpired _ => some "expired"
  | .rejectTotal _ _ => some "total_exceeded"
  | .rejectPeriod _ _ _ => some "period_exceeded"

/-- The JS spread update `{...usageObj, [modelId]: usageEntry}`: same
lookup behaviour as the object spread (all other keys preserved, the
given key now maps to `v`). -/
def setUsage (l : List (String × StoredUsage)) (k : String) (v : StoredUsage) :
    List (String × StoredUsage) :=
  (l.filter (fun kv => kv.1 ≠ k)) ++ [(k, v)]

/-- Result of one quota check: the outcome, the route's `modelUsage` map
after the call, and whether the routes document was persisted
(`saveConfigJson`). -/
structure QuotaResult where
  outcome : QuotaOutcome
  modelUsage : List (String × StoredUsage)
  saved : Bool
deriving DecidableEq, Repr

/-- The limit comparisons and commit of `consumeRoutingModelQuota`
after expiry check and period rollover (`claude.js` lines 145-185 /
`openai.js` lines 150-190): reject on `totalUsed >= total`, then on
`periodUsed >= periodLimit`; otherwise increment `totalUsed` (and
`periodUsed` when a period plus `periodLimit` is configured), write the
entry back under `modelId` and persist. -/
def quotaDecide (lc : LimitEntry) (u1 : UsageEntry)
    (modelUsage : List (String × StoredUsage)) (modelId : String) : QuotaResult :=
  match lc.total with
  | some t =>
      if u1.totalUsed ≥ t then ⟨.rejectTotal t u1.totalUsed, modelUsage, false⟩
      else quotaDecidePeriod lc u1 modelUsage modelId
  | none => quotaDecidePeriod lc u1 modelUsage modelId
where
  quotaDecidePeriod (lc : LimitEntry) (u1 : UsageEntry)
      (modelUsage : List (String × StoredUsage)) (modelId : String) : QuotaResult :=
    match lc.period, lc.periodLimit with
    | some p, some pl =>
        if u1.periodUsed ≥ pl then ⟨.rejectPeriod p pl u1.periodUsed, modelUsage, false⟩
        else
          let u2 : UsageEntry := ⟨u1.totalUsed + 1, u1.periodUsed + 1, u1.lastReset⟩
          ⟨.allow u2.totalUsed u2.periodUsed,
           setUsage modelUsage modelId (.obj (some u2.totalUsed) (some u2.periodUsed) (some u2.lastReset)),
           true⟩
    | _, _ =>
        let u2 : UsageEntry := ⟨u1.totalUsed + 1, u1.periodUsed, u1.lastReset⟩
        ⟨.allow u2.totalUsed u2.periodUsed,
         setUsage modelUsage modelId (.obj (some u2.totalUsed) (some u2.periodUsed) (some u2.lastReset)),
         true⟩

/-- `consumeRoutingModelQuota(routeId, modelId)` from `claude.js`
lines 105-186 / `openai.js` lines 110-191 (the two copies are
line-for-line identical), for a found route, as a pure function of the
route's `modelLimits` / `modelUsage` maps, the current instant `now`
(`Date.now()`) and the period-start function `ps`
(`getPeriodStartTimestamp`). -/
def consumeRoutingModelQuota (now : Int) (ps : String → Int)
    (modelLimits : List (String × StoredLimit)) (modelUsage : List (String × StoredUsage))
    (modelId : String) : QuotaResult :=
  match normalizeLimitEntry (alookup modelLimits modelId) with
  | none => ⟨.allowBare, modelUsage, false⟩
  | some lc =>
      let u0 := normalizeUsageEntry (alookup modelUsage modelId)
      match expireRejected now lc with
      | some e => ⟨.rejectExpired e, modelUsage, false⟩
      | none => quotaDecide lc (rolloverUsage ps lc u0) modelUsage modelId

/-- `quotaDecide` either allows and persists, or rejects leaving the
usage map untouched and nothing persisted. -/
theorem quotaDecide_cases (lc : LimitEntry) (u1 : UsageEntry)
    (mu : List (String × StoredUsage)) (mid : String) :
    ((quotaDecide lc u1 mu mid).outcome.allowed = true ∧
        (quotaDecide lc u1 mu mid).saved = true)
    ∨ ((quotaDecide lc u1 mu mid).outcome.allowed = false ∧
        (quotaDecide lc u1 mu mid).modelUsage = mu ∧
        (quotaDecide lc u1 mu mid).saved = false) := by
  unfold quotaDecide
  split
  · split
    · right; exact ⟨rfl, rfl, rfl⟩
    · unfold quotaDecide.quotaDecidePeriod
      split
      · split
        · right; exact ⟨rfl, rfl, rfl⟩
        · left; exact ⟨rfl, rfl⟩
      · left; exact ⟨rfl, rfl⟩
  · unfold quotaDecide.quotaDecidePeriod
    split
    · split
      · right; exact ⟨rfl, rfl, rfl⟩
      · left; exact ⟨rfl, rfl⟩
    · left; exact ⟨rfl, rfl⟩

/-- `consumeRoutingModelQuota` either allows, or rejects leaving the
usage map untouched and nothing persisted. -/
theorem consume_cases (now : Int) (ps : String → Int)
    (limits : List (String × StoredLimit)) (usage : List (String × StoredUsage)) (m : String) :
    (consumeRoutingModelQuota now ps limits usage m).outcome.allowed = true
    ∨ ((consumeRoutingModelQuota now ps limits usage m).outcome.allowed = false ∧
       (consumeRoutingModelQuota now ps limits usage m).modelUsage = usage ∧
       (consumeRoutingModelQuota now ps limits usage m).saved = false) := by
  unfold consumeRoutingModelQuota
  split
  · left; rfl
  · rename_i lc _
    split
    · right; exact ⟨rfl, rfl, rfl⟩
    · rcases quotaDecide_cases lc (rolloverUsage ps lc (normalizeUsageEntry (alookup usage m)))
          usage m with ⟨h1, _⟩ | ⟨h1, h2, h3⟩
      · left; exact h1
      · right; exact ⟨h1, h2, h3⟩

/-- C10: whenever the quota check rejects a request (reason `expired`,
`total_exceeded`, or `period_exceeded`), the route's stored `modelUsage`
map is left unchanged and the routes document is not persisted: the
counter increments, the `lastReset` advance and the save happen only on
the allow path (a period rollover detected during a rejected check is
computed on the local normalized copy and never written back). -/
theorem reject_leaves_state_unchanged (now : Int) (ps : String → Int)
    (limits : List (String × StoredLimit)) (usage : List (String × StoredUsage)) (m : String)
    (h : (consumeRoutingModelQuota now ps limits usage m).outcome.allowed = false) :
    (consumeRoutingModelQuota now ps limits usage m).modelUsage = usage ∧
    (consumeRoutingModelQuota now ps limits usage m).saved = false := by
  rcases consume_cases now ps limits usage m with hall | ⟨_, h2, h3⟩
  · rw [hall] at h; cases h
  · exact ⟨h2, h3⟩

/-- Witness for C10: a route with limit `{total: 0}` for `"m"` and prior
usage `5` rejects, and the stored usage map and save flag are untouched. -/
theorem reject_leaves_state_unchanged_witness :
    ((consumeRoutingModelQuota 0 (fun _ => 0)
        [("m", StoredLimit.num 0)] [("m", StoredUsage.num 5)] "m").outcome.allowed = false) ∧
    ((consumeRoutingModelQuota 0 (fun _ => 0)
        [("m", StoredLimit.num 0)] [("m", StoredUsage.num 5)] "m").modelUsage
        = [("m", StoredUsage.num 5)] ∧
     (consumeRoutingModelQuota 0 (fun _ => 0)
        [("m", StoredLimit.num 0)] [("m", StoredUsage.num 5)] "m").saved = false) :=
  ⟨by decide,
   reject_leaves_state_unchanged 0 (fun _ => 0)
     [("m", StoredLimit.num 0)] [("m", StoredUsage.num 5)] "m" (by decide)⟩

/-- C1: for a route and model whose normalized limit is the pure total
cap `{total: t, period: null, periodLimit: null, expireAt: null}` with
`t ≥ 0`, the quota check allows and increments `totalUsed` by exactly one
iff `totalUsed < t` on entry, and otherwise rejects with reason
`total_exceeded` reporting the limit `t` and the current `totalUsed`;
consequently a route with `modelLimits["m"] = {total: 2}` admits exactly
two requests for `m` and rejects the third with `totalUsed = 2`. -/
theorem quotaTotal_characterization :
    (∀ (now : Int) (ps : String → Int) (limits : List (String × StoredLimit))
        (usage : List (String × StoredUsage)) (m : String) (t : Int),
        0 ≤ t →
        normalizeLimitEntry (alookup limits m) = some ⟨some t, none, none, none⟩ →
        ((consumeRoutingModelQuota now ps limits usage m).outcome.allowed = true ↔
            (normalizeUsageEntry (alookup usage m)).totalUsed < t) ∧
        ((normalizeUsageEntry (alookup usage m)).totalUsed < t →
          consumeRoutingModelQuota now ps limits usage m =
            ⟨.allow ((normalizeUsageEntry (alookup usage m)).totalUsed + 1)
                    ((normalizeUsageEntry (alookup usage m)).periodUsed),
             setUsage usage m
               (.obj (some ((normalizeUsageEntry (alookup usage m)).totalUsed + 1))
                     (some ((normalizeUsageEntry (alookup usage m)).periodUsed))
                     (some ((normalizeUsageEntry (alookup usage m)).lastReset))),
             true⟩) ∧
        (t ≤ (normalizeUsageEntry (alookup usage m)).totalUsed →
          consumeRoutingModelQuota now ps limits usage m =
            ⟨.rejectTotal t (normalizeUsageEntry (alookup usage m)).totalUsed, usage, false⟩ ∧
          (consumeRoutingModelQuota now ps limits usage m).outcome.reason
            = some "total_exceeded")) ∧
    ((consumeRoutingModelQuota 0 (fun _ => 0)
        [("m", StoredLimit.obj (some 2) none none none)] [] "m").outcome
        = .allow 1 0 ∧
     (consumeRoutingModelQuota 0 (fun _ => 0)
        [("m", StoredLimit.obj (some 2) none none none)]
        (consumeRoutingModelQuota 0 (fun _ => 0)
          [("m", StoredLimit.obj (some 2) none none none)] [] "m").modelUsage "m").outcome
        = .allow 2 0 ∧
     (consumeRoutingModelQuota 0 (fun _ => 0)
        [("m", StoredLimit.obj (some 2) none none none)]
        (consumeRoutingModelQuota 0 (fun _ => 0)
          [("m", StoredLimit.obj (some 2) none none none)]
          (consumeRoutingModelQuota 0 (fun _ => 0)
            [("m", StoredLimit.obj (some 2) none none none)] [] "m").modelUsage "m").modelUsage
        "m").outcome
        = .rejectTotal 2 2) := by
  constructor
  · intro now ps limits usage m t _ hlim
    have hq : consumeRoutingModelQuota now ps limits usage m =
        (if (normalizeUsageEntry (alookup usage m)).totalUsed ≥ t
         then (⟨.rejectTotal t (normalizeUsageEntry (alookup usage m)).totalUsed,
               usage, false⟩ : QuotaResult)
         else ⟨.allow ((normalizeUsageEntry (alookup usage m)).totalUsed + 1)
                      ((normalizeUsageEntry (alookup usage m)).periodUsed),
               setUsage usage m
                 (.obj (some ((normalizeUsageEntry (alookup usage m)).totalUsed + 1))
                       (some ((normalizeUsageEntry (alookup usage m)).periodUsed))
                       (some ((normalizeUsageEntry (alookup usage m)).lastReset))),
               true⟩) := by
      unfold consumeRoutingModelQuota
      rw [hlim]
      rfl
    by_cases hge : (normalizeUsageEntry (alookup usage m)).totalUsed ≥ t
    · rw [hq, if_pos hge]
      refine ⟨?_, ?_, ?_⟩
      · simp only [QuotaOutcome.allowed]
        constructor
        · intro h; cases h
        · intro h; omega
      · intro hlt; omega
      · intro _; exact ⟨rfl, rfl⟩
    · rw [hq, if_neg hge]
      refine ⟨?_, ?_, ?_⟩
      · simp only [QuotaOutcome.allowed, true_iff]; omega
      · intro _; rfl
      · intro hle; exact absurd hle hge
  · refine ⟨by decide, by decide, by decide⟩

/-- Witness for C1: the general characterization applied at the concrete
route `modelLimits["m"] = {total: 2}` with `totalUsed = 2` on entry. -/
theorem quotaTotal_characterization_witness :
    ((0:Int) ≤ 2 ∧
     normalizeLimitEntry (alookup [("m", StoredLimit.obj (some 2) none none none)] "m")
       = some ⟨some 2, none, none, none⟩) ∧
    ((consumeRoutingModelQuota 0 (fun _ => 0)
        [("m", StoredLimit.obj (some 2) none none none)]
        [("m", StoredUsage.num 2)] "m").outcome.allowed = true ↔
      (normalizeUsageEntry (alookup [("m", StoredUsage.num 2)] "m")).totalUsed < 2) :=
  ⟨⟨by decide, by decide⟩,
   (quotaTotal_characterization.1 0 (fun _ => 0)
      [("m", StoredLimit.obj (some 2) none none none)]
      [("m", StoredUsage.num 2)] "m" 2 (by decide) (by decide)).1⟩

/-- Counterexample to C2: a limit configuring `period: "daily"` together
with only a `total` (no `periodLimit`) does *not* get its usage entry
rolled over. Concretely: the normalized limit has period `daily`, the
stored entry has `lastReset = 0` strictly before the current period
start `100`, yet after an (allowed) check the stored entry still carries
`periodUsed = 3` and `lastReset = 0` — neither was `periodUsed` reset to
0 nor `lastReset` advanced, because the code's rollover guard requires
`period && periodLimit !== null`. -/
theorem periodRollover_requires_periodLimit_cex :
    normalizeLimitEntry
        (alookup [("m", StoredLimit.obj (some 5) (some "daily") none none)] "m")
      = some ⟨some 5, some "daily", none, none⟩ ∧
    (normalizeUsageEntry
        (alookup [("m", StoredUsage.obj (some 1) (some 3) (some 0))] "m")).lastReset = 0 ∧
    ((0:Int) < 100) ∧
    consumeRoutingModelQuota 0 (fun _ => 100)
        [("m", StoredLimit.obj (some 5) (some "daily") none none)]
        [("m", StoredUsage.obj (some 1) (some 3) (some 0))] "m"
      = ⟨.allow 2 3, [("m", StoredUsage.obj (some 2) (some 3) (some 0))], true⟩ := by
  decide

/-- C2 as amended: the period rollover (reset `periodUsed` to 0, advance
`lastReset` to the period start) happens, before any limit comparison,
exactly for limits that configure a period *together with a
`periodLimit`*; a limit configuring a period with only a `total` or
`expireAt` and no `periodLimit` is never rolled over. The third conjunct
shows structurally that every limit comparison of
`consumeRoutingModelQuota` is made on the rolled-over entry. -/
theorem periodRollover_amended :
    (∀ (ps : String → Int) (lc : LimitEntry) (u : UsageEntry) (p : String),
        lc.period = some p → lc.periodLimit.isSome = true → u.lastReset < ps p →
        rolloverUsage ps lc u = ⟨u.totalUsed, 0, ps p⟩) ∧
    (∀ (ps : String → Int) (lc : LimitEntry) (u : UsageEntry),
        lc.periodLimit = none → rolloverUsage ps lc u = u) ∧
    (∀ (now : Int) (ps : String → Int) (limits : List (String × StoredLimit))
        (usage : List (String × StoredUsage)) (m : String) (lc : LimitEntry),
        normalizeLimitEntry (alookup limits m) = some lc →
        expireRejected now lc = none →
        consumeRoutingModelQuota now ps limits usage m =
          quotaDecide lc (rolloverUsage ps lc (normalizeUsageEntry (alookup usage m))) usage m) := by
  refine ⟨?_, ?_, ?_⟩
  · intro ps lc u p hp hpl hstale
    unfold rolloverUsage
    rw [hp]
    rcases hl : lc.periodLimit with _ | pl
    · rw [hl] at hpl; cases hpl
    · simp only [if_pos hstale]
  · intro ps lc u hpl
    unfold rolloverUsage
    rcases hp : lc.period with _ | p
    · rfl
    · rw [hpl]
  · intro now ps limits usage m lc hlim hexp
    unfold consumeRoutingModelQuota
    rw [hlim]
    simp only [hexp]

/-- Witness for C2's amended theorem: a daily limit with
`periodLimit = 4` and a stale entry (`lastReset = 0 < 100`) is rolled
over to `periodUsed = 0`, `lastReset = 100`. -/
theorem periodRollover_amended_witness :
    ((⟨some 5, some "daily", some 4, none⟩ : LimitEntry).period = some "daily" ∧
     (⟨some 5, some "daily", some 4, none⟩ : LimitEntry).periodLimit.isSome = true ∧
     ((⟨1, 3, 0⟩ : UsageEntry).lastReset < (fun _ => (100:Int)) "daily")) ∧
    rolloverUsage (fun _ => (100:Int)) ⟨some 5, some "daily", some 4, none⟩ ⟨1, 3, 0⟩
      = ⟨1, 0, 100⟩ :=
  ⟨⟨by decide, by decide, by decide⟩,
   periodRollover_amended.1 (fun _ => (100:Int)) ⟨some 5, some "daily", some 4, none⟩
     ⟨1, 3, 0⟩ "daily" (by decide) (by decide) (by decide)⟩

/-- Counterexample to C9 at `n = -1`: the bare-number limit keeps the
raw value (`{total: -1, ...}`, rejecting every request immediately),
while the object form `{total: -1}` runs `parseNonNegativeInt` and
normalizes to *no limit at all* (unconditional allow); likewise the bare
usage `-1` keeps `totalUsed = -1` while the object form `{totalUsed: -1}`
normalizes it to `0`. The two representations do not normalize to the
same internal shape and the quota check behaves differently on them. -/
theorem legacyNormalization_negative_cex :
    normalizeLimitEntry (some (StoredLimit.num (-1)))
      = some ⟨some (-1), none, none, none⟩ ∧
    normalizeLimitEntry (some (StoredLimit.obj (some (-1)) none none none)) = none ∧
    normalizeLimitEntry (some (StoredLimit.num (-1)))
      ≠ normalizeLimitEntry (some (StoredLimit.obj (some (-1)) none none none)) ∧
    (consumeRoutingModelQuota 0 (fun _ => 0) [("m", StoredLimit.num (-1))] [] "m").outcome
      = .rejectTotal (-1) 0 ∧
    (consumeRoutingModelQuota 0 (fun _ => 0)
        [("m", StoredLimit.obj (some (-1)) none none none)] [] "m").outcome
      = .allowBare ∧
    normalizeUsageEntry (some (StoredUsage.num (-1)))
      ≠ normalizeUsageEntry (some (StoredUsage.obj (some (-1)) none none)) := by
  decide

/-- C9 as amended: for every *non-negative* integer `n` the bare-number
limit `n` and the object form `{total: n}` normalize to the same internal
shape `{total: n, period: null, periodLimit: null, expireAt: null}` (so
the quota check behaves identically on them), and the bare usage `n` and
object form `{totalUsed: n}` both normalize to
`{totalUsed: n, periodUsed: 0, lastReset: 0}`; for negative `n` the two
representations diverge (the bare form keeps the raw value, the object
form falls back). -/
theorem legacyNormalization_nonneg (n : Int) (hn : 0 ≤ n) :
    normalizeLimitEntry (some (StoredLimit.num n))
      = normalizeLimitEntry (some (StoredLimit.obj (some n) none none none)) ∧
    normalizeUsageEntry (some (StoredUsage.num n))
      = normalizeUsageEntry (some (StoredUsage.obj (some n) none none)) ∧
    normalizeUsageEntry (some (StoredUsage.num n)) = ⟨n, 0, 0⟩ := by
  have hlt : ¬ n < 0 := not_lt.mpr hn
  refine ⟨?_, ?_, rfl⟩
  · show _ = normalizeLimitEntry (some (StoredLimit.obj (some n) none none none))
    unfold normalizeLimitEntry parseNonNegativeInt
    simp [hlt]
  · unfold normalizeUsageEntry parseNonNegativeInt
    simp [hlt]

/-- Witness for C9's amended theorem at `n = 5`: the bare limit `5` and
`{total: 5}` normalize identically, as do usage `5` and
`{totalUsed: 5}`. -/
theorem legacyNormalization_nonneg_witness :
    (0:Int) ≤ 5 ∧
    (normalizeLimitEntry (some (StoredLimit.num 5))
        = normalizeLimitEntry (some (StoredLimit.obj (some 5) none none none)) ∧
     normalizeUsageEntry (some (StoredUsage.num 5))
        = normalizeUsageEntry (some (StoredUsage.obj (some 5) none none)) ∧
     normalizeUsageEntry (some (StoredUsage.num 5)) = ⟨5, 0, 0⟩) :=
  ⟨by decide, legacyNormalization_nonneg 5 (by decide)⟩

/-- `alookup` distributes over append, preferring the left list. -/
theorem alookup_append {α : Type} (l1 l2 : List (String × α)) (k : String) :
    alookup (l1 ++ l2) k =
      match alookup l1 k with
      | some v => some v
      | none => alookup l2 k := by
  induction l1 with
  | nil => rfl
  | cons hd tl ih =>
      rcases hd with ⟨k', v⟩
      by_cases h : k' = k
      · simp [alookup, h]
      · simp [alookup, h, ih]

/-- Filtering out key `k` removes it from lookup. -/
theorem alookup_filter_self {α : Type} (l : List (String × α)) (k : String) :
    alookup (l.filter (fun kv => kv.1 ≠ k)) k = none := by
  induction l with
  | nil => rfl
  | cons hd tl ih =>
      rcases hd with ⟨k', v⟩
      by_cases h : k' = k
      · simpa [List.filter_cons, h] using ih
      · simpa [List.filter_cons, h, alookup] using ih

/-- Filtering out key `k` does not change lookup of other keys. -/
theorem alookup_filter_other {α : Type} (l : List (String × α)) (k k' : String)
    (h : k' ≠ k) :
    alookup (l.filter (fun kv => kv.1 ≠ k)) k' = alookup l k' := by
  induction l with
  | nil => rfl
  | cons hd tl ih =>
      rcases hd with ⟨k0, v⟩
      by_cases h0 : k0 = k
      · subst h0
        have h2 : ¬ (k0 = k') := fun he => h he.symm
        simpa [List.filter_cons, alookup, h2] using ih
      · by_cases h1 : k0 = k'
        · subst h1
          simp [List.filter_cons, alookup, h0, h]
        · simpa [List.filter_cons, alookup, h0, h1] using ih

/-- The JS spread update: lookup of the written key yields the new
value, lookup of every other key is unchanged. -/
theorem alookup_setUsage (l : List (String × StoredUsage)) (k : String) (v : StoredUsage)
    (k' : String) :
    alookup (setUsage l k v) k' = if k' = k then some v else alookup l k' := by
  unfold setUsage
  rw [alookup_append]
  by_cases h : k' = k
  · subst h
    rw [alookup_filter_self]
    simp [alookup]
  · have h2 : ¬ (k = k') := fun he => h he.symm
    rw [alookup_filter_other l k k' h]
    cases hl : alookup l k'
    · simp [alookup, h, h2]
    · simp [h, hl]

/-- The quota check either leaves the usage map unchanged or writes only
under the checked model id. -/
theorem consume_modelUsage_shape (now : Int) (ps : String → Int)
    (limits : List (String × StoredLimit)) (usage : List (String × StoredUsage)) (m : String) :
    (consumeRoutingModelQuota now ps limits usage m).modelUsage = usage ∨
    ∃ v, (consumeRoutingModelQuota now ps limits usage m).modelUsage = setUsage usage m v := by
  unfold consumeRoutingModelQuota
  split
  · left; rfl
  · split
    · left; rfl
    · unfold quotaDecide
      dsimp only
      split
      · split
        · left; rfl
        · unfold quotaDecide.quotaDecidePeriod
          dsimp only
          split
          · split
            · left; rfl
            · right; exact ⟨_, rfl⟩
          · right; exact ⟨_, rfl⟩
      · unfold quotaDecide.quotaDecidePeriod
        dsimp only
        split
        · split
          · left; rfl
          · right; exact ⟨_, rfl⟩
        · right; exact ⟨_, rfl⟩

/-- A quota check for model `m` never changes the stored usage of any
other key `k`. -/
theorem consume_modelUsage_other (now : Int) (ps : String → Int)
    (limits : List (String × StoredLimit)) (usage : List (String × StoredUsage))
    (m k : String) (h : k ≠ m) :
    alookup (consumeRoutingModelQuota now ps limits usage m).modelUsage k = alookup usage k := by
  rcases consume_modelUsage_shape now ps limits usage m with heq | ⟨v, heq⟩
  · rw [heq]
  · rw [heq, alookup_setUsage]
    simp [h]

/-- Stable insertion of a string into a sorted list (ascending, ties keep
existing elements first); building block of the embedding of JS
`Array.prototype.sort()` on strings. -/
def insertSorted (s : String) : List String → List String
  | [] => [s]
  | x :: xs => if s < x then s :: x :: xs else x :: insertSorted s xs

/-- Embedding of JS `.sort()` on an array of strings: lexicographic
ascending order. -/
def sortStrings : List String → List String
  | [] => []
  | x :: xs => insertSorted x (sortStrings xs)

/-- Remove duplicates keeping first occurrences; the embedding of
`Array.from(new Set(list))`. -/
def dedupFirst : List String → List String
  | [] => []
  | x :: xs => x :: dedupFirst (xs.filter (fun y => y ≠ x))
termination_by l => l.length
decreasing_by
  simp only [List.length_cons]
  exact Nat.lt_succ_of_le (List.length_filter_le _ _)

/-- A route as handed to the handlers by the auth layer
(`req.downstreamRoute`) together with its quota state. -/
structure RouteInfo where
  id : String
  isMaster : Bool
  models : List String
  modelAliases : List (String × String)
  modelLimits : List (String × StoredLimit)
  modelUsage : List (String × StoredUsage)
deriving DecidableEq, Repr

/-- The 400-error message enumerating the allowed model and alias names:
`claude.js` lines 310-315 / `openai.js` lines 259-269 — the deduplicated
union of `route.models` and the alias keys, truthy-filtered, sorted and
comma-joined. -/
def allowedModelsMessage (requested : String) (models : List String)
    (aliasNames : List String) : String :=
  "Model '" ++ requested ++ "' is not allowed for this API key. Allowed models: " ++
    String.intercalate ", "
      (sortStrings ((dedupFirst (models ++ aliasNames)).filter (fun s => s ≠ "")))

/-- Outcome of the model allow-list / alias-resolution gate. -/
inductive ResolveResult : Type
  | badAlias (msg : String)
  | notAllowed (msg : String)
  | resolved (actualModel : String)
deriving DecidableEq, Repr

/-- The model gate of `handleClaudeRequest` (`claude.js` lines 295-317)
and `handleOpenAIRequest` (`openai.js` lines 243-271); the two copies are
identical except for the error payload wrapper. On a master route the
gate is skipped and the requested model is used as-is. An alias key is
checked *before* the models list; an alias with a falsy target is a 400;
a model in neither set is a 400 whose message enumerates the allowed
names. -/
def resolveRoutedModel (route : RouteInfo) (requested : String) : ResolveResult :=
  if route.isMaster then .resolved requested
  else
    match alookup route.modelAliases requested with
    | some mapped =>
        if mapped = "" then .badAlias ("Invalid alias mapping for model: " ++ requested)
        else .resolved mapped
    | none =>
        if requested ∈ route.models then .resolved requested
        else .notAllowed
          (allowedModelsMessage requested route.models (route.modelAliases.map (fun kv => kv.1)))

/-- Admission result of a handler request: `badRequest` is rendered as
HTTP 400, `quotaRejected` as HTTP 429, `dispatched` proceeds upstream
with the resolved model and the updated usage map. -/
inductive HandlerAdmit : Type
  | badRequest (msg : String)
  | quotaRejected (outcome : QuotaOutcome)
  | dispatched (actualModel : String) (modelUsage : List (String × StoredUsage))
deriving DecidableEq, Repr

/-- The admission pipeline of both handlers (`claude.js` lines 295-336 /
`openai.js` lines 243-293): model gate, then — on non-master routes —
the quota check under the *resolved* model. -/
def admitRequest (now : Int) (ps : String → Int) (route : RouteInfo)
    (requested : String) : HandlerAdmit :=
  match resolveRoutedModel route requested with
  | .badAlias msg => .badRequest msg
  | .notAllowed msg => .badRequest msg
  | .resolved actual =>
      if route.isMaster then .dispatched actual route.modelUsage
      else
        let q := consumeRoutingModelQuota now ps route.modelLimits route.modelUsage actual
        if q.outcome.allowed then .dispatched actual q.modelUsage
        else .quotaRejected q.outcome

/-- C3: on a non-master route (in both the OpenAI and the Claude
handler, whose gate code is identical): a requested model equal to an
alias key resolves to the alias's concrete target, and the request is
dispatched with quota checked and debited under the resolved target
model — never under the alias name (the usage entry stored under the
alias name is untouched); a requested model in neither the models list
nor the alias keys is rejected with a 400 validation error whose message
enumerates the allowed model and alias names. -/
theorem aliasResolution_dispatch :
    (∀ (now : Int) (ps : String → Int) (route : RouteInfo) (requested target : String),
        route.isMaster = false →
        alookup route.modelAliases requested = some target →
        target ≠ "" →
        resolveRoutedModel route requested = .resolved target ∧
        admitRequest now ps route requested =
          (if (consumeRoutingModelQuota now ps route.modelLimits
                route.modelUsage target).outcome.allowed
           then .dispatched target
             (consumeRoutingModelQuota now ps route.modelLimits route.modelUsage target).modelUsage
           else .quotaRejected
             (consumeRoutingModelQuota now ps route.modelLimits route.modelUsage target).outcome) ∧
        (requested ≠ target →
          alookup (consumeRoutingModelQuota now ps route.modelLimits
              route.modelUsage target).modelUsage requested
            = alookup route.modelUsage requested)) ∧
    (∀ (now : Int) (ps : String → Int) (route : RouteInfo) (requested : String),
        route.isMaster = false →
        alookup route.modelAliases requested = none →
        requested ∉ route.models →
        admitRequest now ps route requested =
          .badRequest (allowedModelsMessage requested route.models
            (route.modelAliases.map (fun kv => kv.1)))) := by
  constructor
  · intro now ps route requested target hM hali htgt
    have hres : resolveRoutedModel route requested = .resolved target := by
      unfold resolveRoutedModel
      simp [hM, hali, htgt]
    refine ⟨hres, ?_, ?_⟩
    · unfold admitRequest
      rw [hres]
      simp [hM]
    · intro hne
      exact consume_modelUsage_other now ps route.modelLimits route.modelUsage target requested hne
  · intro now ps route requested hM hali hmem
    unfold admitRequest resolveRoutedModel
    simp [hM, hali, hmem]

/-- Witness for C3: the spec's example route with alias
`{"fast": "gpt-5.1-codex-mini"}` — requesting `"fast"` resolves to, and
is quota-checked under, `"gpt-5.1-codex-mini"`. -/
theorem aliasResolution_dispatch_witness :
    ((RouteInfo.mk "r1" false ["gpt-5.1-codex-mini"] [("fast", "gpt-5.1-codex-mini")] [] []).isMaster
        = false ∧
     alookup (RouteInfo.mk "r1" false ["gpt-5.1-codex-mini"]
        [("fast", "gpt-5.1-codex-mini")] [] []).modelAliases "fast" = some "gpt-5.1-codex-mini" ∧
     "gpt-5.1-codex-mini" ≠ "") ∧
    resolveRoutedModel
        (RouteInfo.mk "r1" false ["gpt-5.1-codex-mini"] [("fast", "gpt-5.1-codex-mini")] [] [])
        "fast"
      = .resolved "gpt-5.1-codex-mini" :=
  ⟨⟨by decide, by decide, by decide⟩,
   (aliasResolution_dispatch.1 0 (fun _ => 0)
      (RouteInfo.mk "r1" false ["gpt-5.1-codex-mini"] [("fast", "gpt-5.1-codex-mini")] [] [])
      "fast" "gpt-5.1-codex-mini" (by decide) (by decide) (by decide)).1⟩

/-- Reduction of `a % n` when `a < 2 * n`. -/
theorem two_n_mod (n a : Nat) (hn : 0 < n) (ha : a < 2 * n) :
    a % n = if a < n then a else a - n := by
  by_cases h : a < n
  · rw [if_pos h, Nat.mod_eq_of_lt h]
  · rw [if_neg h]
    have h1 : a ≥ n := Nat.le_of_not_lt h
    rw [Nat.mod_eq_sub_mod h1, Nat.mod_eq_of_lt (by omega)]

/-- Shifting the base into its residue does not change the result. -/
theorem add_mod_shift (n i k : Nat) :
    (i + k) % n = (i % n + k) % n := by
  conv_lhs => rw [← Nat.mod_add_div i n]
  rw [Nat.add_comm (i % n) (n * (i / n)), Nat.add_assoc, Nat.mul_comm n (i / n),
    Nat.add_comm (i / n * n) _, Nat.add_mul_mod_self_right]

/-- Within one cycle the map `k ↦ (i + k) % n` is injective. -/
theorem add_mod_inj (n i k1 k2 : Nat) (hn : 0 < n) (h1 : k1 < n) (h2 : k2 < n)
    (heq : (i + k1) % n = (i + k2) % n) : k1 = k2 := by
  have hr : i % n < n := Nat.mod_lt _ hn
  have f1 : (i % n + k1) % n = if i % n + k1 < n then i % n + k1 else i % n + k1 - n :=
    two_n_mod n _ hn (by omega)
  have f2 : (i % n + k2) % n = if i % n + k2 < n then i % n + k2 else i % n + k2 - n :=
    two_n_mod n _ hn (by omega)
  rw [add_mod_shift n i k1, add_mod_shift n i k2, f1, f2] at heq
  split at heq <;> split at heq <;> omega

/-- Every residue `j < n` is hit by some `k < n` under `k ↦ (i + k) % n`. -/
theorem add_mod_surj (n i j : Nat) (hn : 0 < n) (hj : j < n) :
    ∃ k, k < n ∧ (i + k) % n = j := by
  have hr : i % n < n := Nat.mod_lt _ hn
  by_cases hle : i % n ≤ j
  · refine ⟨j - i % n, by omega, ?_⟩
    rw [add_mod_shift]
    have he : i % n + (j - i % n) = j := by omega
    rw [he, Nat.mod_eq_of_lt hj]
  · refine ⟨n + j - i % n, by omega, ?_⟩
    rw [add_mod_shift]
    have he : i % n + (n + j - i % n) = n + j := by omega
    rw [he, Nat.add_mod_left, Nat.mod_eq_of_lt hj]

/-- One full cycle of `n` consecutive indices taken mod `n` hits each
residue `j < n` exactly once. -/
theorem count_mod_range_n (n i j : Nat) (hn : 0 < n) (hj : j < n) :
    ((List.range n).map (fun k => (i + k) % n)).count j = 1 := by
  apply List.count_eq_one_of_mem
  · apply List.Nodup.map_on
    · intro k1 hk1 k2 hk2 heq
      rw [List.mem_range] at hk1 hk2
      exact add_mod_inj n i k1 k2 hn hk1 hk2 heq
    · exact List.nodup_range n
  · rw [List.mem_map]
    rcases add_mod_surj n i j hn hj with ⟨k, hk, hkj⟩
    exact ⟨k, List.mem_range.mpr hk, hkj⟩

/-- `M` consecutive indices taken mod `n` hit each residue `j < n`
exactly `M / n` times when `n` divides `M`. -/
theorem count_mod_range (n M i j : Nat) (hn : 0 < n) (hj : j < n) (hdvd : n ∣ M) :
    ((List.range M).map (fun k => (i + k) % n)).count j = M / n := by
  rcases hdvd with ⟨q, rfl⟩
  rw [Nat.mul_div_cancel_left q hn]
  induction q generalizing i with
  | zero => simp
  | succ q ih =>
      have hsplit : n * (q + 1) = n * q + n := by ring
      rw [hsplit, List.range_add, List.map_append, List.count_append, ih i]
      have hmap : (List.map (fun x => n * q + x) (List.range n)).map (fun k => (i + k) % n)
          = (List.range n).map (fun k => (i + k) % n) := by
        rw [List.map_map]
        apply List.map_congr_left
        intro k _
        show (i + (n * q + k)) % n = (i + k) % n
        have : i + (n * q + k) = (i + k) + q * n := by ring
        rw [this, Nat.add_mul_mod_self_right]
      rw [hmap, count_mod_range_n n i j hn hj]

/-- A Codex account as used by `CodexTokenManager` (`getToken` /
`isExpired`): auth type, expiry instant and enabled flag. `expires_at = 0`
encodes a missing / falsy `expires_at` (the code only tests
`!account.expires_at`, under which `0`, `null` and `undefined` behave
identically). The token strings are irrelevant to selection and
omitted. -/
structure CodexAccount where
  id : Nat
  auth_type_oauth : Bool
  expires_at : Int
  enable : Bool
deriving DecidableEq, Repr

/-- A Kiro account as used by `KiroTokenManager` (`getToken` /
`isExpired`): expiry instant (the numeric instant denoted by the stored
ISO string; `0` encodes a missing / falsy `expiresAt`) and enabled
flag. -/
structure KiroAccount where
  id : Nat
  expiresAt : Int
  enable : Bool
deriving DecidableEq, Repr

/-- `CODEX_CONSTANTS.TOKEN_REFRESH_BUFFER` from the Codex constants
file (`src/constants/codex.js`, staged as the second document of
`src/src/constants/kiro.js`, line 116): `10 * 60 * 1000` — refresh ten
minutes before expiry. The same literal appears inline in the Kiro
manager's `isExpired`. -/
def TOKEN_REFRESH_BUFFER : Int := 10 * 60 * 1000

namespace CodexTokenManager

/-- `CodexTokenManager.isExpired` (`part_003` lines 90-102): API-key
accounts never expire; OAuth-style accounts with no (falsy) `expires_at`
never expire; otherwise stale iff `now >= expires_at - buffer`. -/
def isExpired (now : Int) (a : CodexAccount) : Bool :=
  if a.auth_type_oauth = false then false
  else if a.expires_at = 0 then false
  else decide (now ≥ a.expires_at - TOKEN_REFRESH_BUFFER)

end CodexTokenManager

namespace KiroTokenManager

/-- `KiroTokenManager.isExpired` (`part_002` lines 1291-1298): no
(falsy) `expiresAt` never expires; otherwise stale iff
`now >= expiresAt - 10 * 60 * 1000`. -/
def isExpired (now : Int) (a : KiroAccount) : Bool :=
  if a.expiresAt = 0 then false
  else decide (now ≥ a.expiresAt - 10 * 60 * 1000)

end KiroTokenManager

/-- Result of a `getToken` call: `noAccounts` is the `null` return,
`ok` yields an account, `refreshFailed` is the re-thrown refresh error,
`fuelOut` marks exhaustion of the recursion bound (the source recursion
is unbounded; it is only entered on refresh failure). -/
inductive TokenResult (α : Type) : Type
  | noAccounts
  | ok (a : α)
  | refreshFailed
  | fuelOut
deriving DecidableEq, Repr

/-- The shared body of `CodexTokenManager.getToken` (`part_003`
lines 154-181) and `KiroTokenManager.getToken` (`part_002`
lines 1259-1286), which are line-for-line identical up to the staleness
guard `needsRefresh`: filter to accounts with `enable !== false`, select
by the shared index modulo the enabled count, increment the index, then
refresh if stale — on refresh failure retry recursively (fuelled here)
when more than one account is enabled, else rethrow. `refreshRes`
abstracts the outcome of `refreshToken` (`some` = the refreshed account
as returned/mutated in place, `none` = throw); the save-to-disk inside a
successful refresh has no effect on selection and is not modelled. The
returned `Nat` is the manager's `currentIndex` after the call. -/
def rrGetToken {α : Type} (enable : α → Bool) (needsRefresh : α → Bool)
    (refreshRes : α → Option α) :
    Nat → List α → Nat → TokenResult α × Nat
  | 0, _, idx => (.fuelOut, idx)
  | fuel + 1, accounts, idx =>
      let enabledAccounts := accounts.filter enable
      if h : enabledAccounts.length = 0 then (.noAccounts, idx)
      else
        let i := idx % enabledAccounts.length
        let account := enabledAccounts.get ⟨i, Nat.mod_lt _ (Nat.pos_of_ne_zero h)⟩
        if needsRefresh account then
          match refreshRes account with
          | some a2 => (.ok a2, idx + 1)
          | none =>
              if 1 < enabledAccounts.length then
                rrGetToken enable needsRefresh refreshRes fuel accounts (idx + 1)
              else (.refreshFailed, idx + 1)
        else (.ok account, idx + 1)

namespace CodexTokenManager

/-- `CodexTokenManager.getToken`: the shared round-robin body with the
Codex staleness guard `account.auth_type === 'oauth' &&
this.isExpired(account)`. -/
def getToken (refreshRes : CodexAccount → Option CodexAccount) (now : Int)
    (fuel : Nat) (accounts : List CodexAccount) (idx : Nat) :
    TokenResult CodexAccount × Nat :=
  rrGetToken (fun a => a.enable)
    (fun a => a.auth_type_oauth && isExpired now a) refreshRes fuel accounts idx

end CodexTokenManager

namespace KiroTokenManager

/-- `KiroTokenManager.getToken`: the shared round-robin body with the
Kiro staleness guard `this.isExpired(account)`. -/
def getToken (refreshRes : KiroAccount → Option KiroAccount) (now : Int)
    (fuel : Nat) (accounts : List KiroAccount) (idx : Nat) :
    TokenResult KiroAccount × Nat :=
  rrGetToken (fun a => a.enable) (fun a => isExpired now a) refreshRes fuel accounts idx

end KiroTokenManager

/-- `M` sequential calls of a `getToken`-shaped step against the same
account list and threaded shared index, collecting the results. -/
def runCalls {α : Type} (step : List α → Nat → TokenResult α × Nat) :
    Nat → List α → Nat → List (TokenResult α) × Nat
  | 0, _, idx => ([], idx)
  | m + 1, accounts, idx =>
      let r := step accounts idx
      let rest := runCalls step m accounts r.2
      (r.1 :: rest.1, rest.2)

/-- When the selected account is stale and its refresh succeeds, the
shared `getToken` body yields the *refreshed* account (and advances the
index by one). -/
theorem rrGetToken_stale_refreshes {α : Type} (enable needsRefresh : α → Bool)
    (refreshRes : α → Option α) (fuel : Nat) (accounts : List α) (idx : Nat)
    (sel a2 : α)
    (hget : (accounts.filter enable).get? (idx % (accounts.filter enable).length) = some sel)
    (hstale : needsRefresh sel = true)
    (href : refreshRes sel = some a2) :
    rrGetToken enable needsRefresh refreshRes (fuel + 1) accounts idx = (.ok a2, idx + 1) := by
  rcases List.get?_eq_some.mp hget with ⟨hlt, hgeteq⟩
  have hne : ¬ (accounts.filter enable).length = 0 := by omega
  unfold rrGetToken
  rw [dif_neg hne]
  dsimp only
  rw [hgeteq, hstale, href]
  rfl

/-- When no enabled account is stale, the shared `getToken` body yields
the enabled account at position `idx % n` and advances the index. -/
theorem rrGetToken_nonstale {α : Type} (enable needsRefresh : α → Bool)
    (refreshRes : α → Option α) (fuel : Nat) (accounts : List α) (idx : Nat)
    (hne : (accounts.filter enable).length ≠ 0)
    (hns : ∀ a ∈ accounts.filter enable, needsRefresh a = false) :
    rrGetToken enable needsRefresh refreshRes (fuel + 1) accounts idx
      = (.ok ((accounts.filter enable).get
          ⟨idx % (accounts.filter enable).length,
           Nat.mod_lt _ (Nat.pos_of_ne_zero hne)⟩), idx + 1) := by
  unfold rrGetToken
  rw [dif_neg hne]
  dsimp only
  rw [hns _ (List.get_mem _ _ _)]
  rfl

/-- `M` sequential non-stale `getToken` calls return exactly the enabled
accounts at positions `idx % n, (idx+1) % n, …` and advance the shared
index by `M`. -/
theorem runCalls_rr_nonstale {α : Type} (enable needsRefresh : α → Bool)
    (refreshRes : α → Option α) (M : Nat) (accounts : List α) (idx : Nat)
    (hne : (accounts.filter enable).length ≠ 0)
    (hns : ∀ a ∈ accounts.filter enable, needsRefresh a = false) :
    runCalls (fun accs i => rrGetToken enable needsRefresh refreshRes (accs.length + 1) accs i)
        M accounts idx
      = ((List.range M).map (fun k =>
          TokenResult.ok ((accounts.filter enable).get
            ⟨(idx + k) % (accounts.filter enable).length,
             Nat.mod_lt _ (Nat.pos_of_ne_zero hne)⟩)), idx + M) := by
  induction M generalizing idx with
  | zero => simp [runCalls]
  | succ m ih =>
      unfold runCalls
      dsimp only
      rw [rrGetToken_nonstale enable needsRefresh refreshRes accounts.length accounts idx hne hns,
        ih (idx + 1)]
      refine congrArg₂ Prod.mk ?_ (by omega)
      rw [List.range_succ_eq_map, List.map_cons, List.map_map]
      refine congrArg₂ List.cons ?_ ?_
      · show TokenResult.ok _ = TokenResult.ok _
        have ev : idx % (accounts.filter enable).length
            = (idx + 0) % (accounts.filter enable).length := by rw [Nat.add_zero]
        exact congrArg TokenResult.ok (congrArg _ (Fin.ext ev))
      · apply List.map_congr_left
        intro k _
        show TokenResult.ok _ = TokenResult.ok _
        have e : idx + 1 + k = idx + (k + 1) := by omega
        have ev : (idx + 1 + k) % (accounts.filter enable).length
            = (idx + (k + 1)) % (accounts.filter enable).length := by rw [e]
        exact congrArg TokenResult.ok (congrArg _ (Fin.ext ev))

/-- With `n` enabled non-stale accounts and `n ∣ M`, each enabled
account (pairwise distinct) is returned exactly `M / n` times by `M`
sequential calls. -/
theorem runCalls_rr_count {α : Type} [DecidableEq α] (enable needsRefresh : α → Bool)
    (refreshRes : α → Option α) (M : Nat) (accounts : List α) (idx : Nat)
    (hne : (accounts.filter enable).length ≠ 0)
    (hns : ∀ a ∈ accounts.filter enable, needsRefresh a = false)
    (hdvd : (accounts.filter enable).length ∣ M)
    (hnd : (accounts.filter enable).Nodup)
    (j : Fin (accounts.filter enable).length) :
    ((runCalls (fun accs i => rrGetToken enable needsRefresh refreshRes (accs.length + 1) accs i)
        M accounts idx).1).count (TokenResult.ok ((accounts.filter enable).get j))
      = M / (accounts.filter enable).length := by
  rw [runCalls_rr_nonstale enable needsRefresh refreshRes M accounts idx hne hns]
  have hpos : 0 < (accounts.filter enable).length := Nat.pos_of_ne_zero hne
  have hfact : (List.range M).map (fun k =>
        TokenResult.ok ((accounts.filter enable).get
          ⟨(idx + k) % (accounts.filter enable).length, Nat.mod_lt _ (Nat.pos_of_ne_zero hne)⟩))
      = ((List.range M).map (fun k =>
          (⟨(idx + k) % (accounts.filter enable).length,
            Nat.mod_lt _ (Nat.pos_of_ne_zero hne)⟩ : Fin (accounts.filter enable).length))).map
          (fun j2 => TokenResult.ok ((accounts.filter enable).get j2)) := by
    rw [List.map_map]
    rfl
  have hinj : Function.Injective (fun j2 : Fin (accounts.filter enable).length =>
      TokenResult.ok ((accounts.filter enable).get j2)) := by
    intro x y hxy
    simp only [TokenResult.ok.injEq] at hxy
    exact (List.Nodup.get_inj_iff hnd).mp hxy
  show ((List.range M).map _).count _ = _
  rw [hfact, List.count_map_of_injective _ _ hinj j]
  rw [← List.count_map_of_injective _ Fin.val Fin.val_injective j, List.map_map]
  have hcomp : (Fin.val ∘ fun k =>
      (⟨(idx + k) % (accounts.filter enable).length,
        Nat.mod_lt _ (Nat.pos_of_ne_zero hne)⟩ : Fin (accounts.filter enable).length))
      = fun k => (idx + k) % (accounts.filter enable).length := rfl
  rw [hcomp]
  exact count_mod_range (accounts.filter enable).length M idx j.val hpos j.isLt hdvd

/-- Non-stale sequential calls only ever return enabled accounts. -/
theorem runCalls_rr_enabled {α : Type} (enable needsRefresh : α → Bool)
    (refreshRes : α → Option α) (M : Nat) (accounts : List α) (idx : Nat)
    (hne : (accounts.filter enable).length ≠ 0)
    (hns : ∀ a ∈ accounts.filter enable, needsRefresh a = false) :
    ∀ a, TokenResult.ok a ∈
        (runCalls (fun accs i => rrGetToken enable needsRefresh refreshRes (accs.length + 1) accs i)
          M accounts idx).1 →
      enable a = true := by
  rw [runCalls_rr_nonstale enable needsRefresh refreshRes M accounts idx hne hns]
  intro a ha
  rcases List.mem_map.mp ha with ⟨k, _, hk⟩
  injection hk with h
  rw [← h]
  exact List.of_mem_filter (List.get_mem _ _ _)

/-- C4: in each credential-store variant, when the round-robin-selected
enabled account carries an expiry instant (`expiresAt ≠ 0` — a falsy
stored expiry means "no expiry") that is at or before
`now + refreshBuffer` (equivalently `now >= expiresAt - refreshBuffer`,
with a 10-minute buffer), `getToken` refreshes that account before
yielding it: the yielded account is the refresh result, not the stale
selection. Covers Codex OAuth accounts (API-key accounts are exempt by
`isExpired`) and Kiro accounts. -/
theorem staleToken_refreshed_before_yield :
    (∀ (refreshRes : CodexAccount → Option CodexAccount) (now : Int) (fuel : Nat)
        (accounts : List CodexAccount) (idx : Nat) (sel a2 : CodexAccount),
        (accounts.filter (fun a => a.enable)).get?
            (idx % (accounts.filter (fun a => a.enable)).length) = some sel →
        sel.auth_type_oauth = true →
        sel.expires_at ≠ 0 →
        sel.expires_at ≤ now + TOKEN_REFRESH_BUFFER →
        refreshRes sel = some a2 →
        CodexTokenManager.getToken refreshRes now (fuel + 1) accounts idx
          = (.ok a2, idx + 1)) ∧
    (∀ (refreshRes : KiroAccount → Option KiroAccount) (now : Int) (fuel : Nat)
        (accounts : List KiroAccount) (idx : Nat) (sel a2 : KiroAccount),
        (accounts.filter (fun a => a.enable)).get?
            (idx % (accounts.filter (fun a => a.enable)).length) = some sel →
        sel.expiresAt ≠ 0 →
        sel.expiresAt ≤ now + 10 * 60 * 1000 →
        refreshRes sel = some a2 →
        KiroTokenManager.getToken refreshRes now (fuel + 1) accounts idx
          = (.ok a2, idx + 1)) := by
  constructor
  · intro refreshRes now fuel accounts idx sel a2 hget hoauth hz hstale href
    have hguard : (sel.auth_type_oauth && CodexTokenManager.isExpired now sel) = true := by
      unfold CodexTokenManager.isExpired
      rw [hoauth]
      simp only [Bool.true_and, Bool.true_eq_false, if_false, hz, if_neg hz]
      rw [decide_eq_true_eq]
      omega
    exact rrGetToken_stale_refreshes (fun a => a.enable)
      (fun a => a.auth_type_oauth && CodexTokenManager.isExpired now a)
      refreshRes fuel accounts idx sel a2 hget hguard href
  · intro refreshRes now fuel accounts idx sel a2 hget hz hstale href
    have hguard : KiroTokenManager.isExpired now sel = true := by
      unfold KiroTokenManager.isExpired
      rw [if_neg hz, decide_eq_true_eq]
      omega
    exact rrGetToken_stale_refreshes (fun a => a.enable)
      (fun a => KiroTokenManager.isExpired now a)
      refreshRes fuel accounts idx sel a2 hget hguard href

/-- Witness for C4: a single enabled OAuth account expiring at `1000`
checked at `now = 500` (within the 10-minute buffer) is refreshed, and
`getToken` yields the refreshed account (expiry pushed to `999999`). -/
theorem staleToken_refreshed_before_yield_witness :
    (([(⟨7, true, 1000, true⟩ : CodexAccount)].filter (fun a => a.enable)).get?
        (0 % ([(⟨7, true, 1000, true⟩ : CodexAccount)].filter (fun a => a.enable)).length)
        = some ⟨7, true, 1000, true⟩ ∧
     (⟨7, true, 1000, true⟩ : CodexAccount).auth_type_oauth = true ∧
     (⟨7, true, 1000, true⟩ : CodexAccount).expires_at ≠ 0 ∧
     (⟨7, true, 1000, true⟩ : CodexAccount).expires_at ≤ 500 + TOKEN_REFRESH_BUFFER) ∧
    CodexTokenManager.getToken (fun a => some ⟨a.id, a.auth_type_oauth, 999999, a.enable⟩)
        500 1 [⟨7, true, 1000, true⟩] 0
      = (.ok ⟨7, true, 999999, true⟩, 1) :=
  ⟨⟨by decide, by decide, by decide, by decide⟩,
   staleToken_refreshed_before_yield.1
     (fun a => some ⟨a.id, a.auth_type_oauth, 999999, a.enable⟩) 500 0
     [⟨7, true, 1000, true⟩] 0 ⟨7, true, 1000, true⟩ ⟨7, true, 999999, true⟩
     (by decide) (by decide) (by decide) (by decide) (by decide)⟩

/-- C5: for each credential-store variant holding only non-stale
accounts, `M` sequential `getToken` calls starting from any shared index
return exactly the enabled accounts in rotating order (`idx % n`,
`(idx+1) % n`, …), advance the shared index by `M`, return each
(pairwise-distinct) enabled account exactly `M / n` times when `n ∣ M`,
and never return a disabled account — disabled accounts do not consume
an index slot, since selection indexes the filtered enabled list. -/
theorem roundRobin_rotation :
    (∀ (refreshRes : CodexAccount → Option CodexAccount) (now : Int)
        (M : Nat) (accounts : List CodexAccount) (idx : Nat)
        (hne : (accounts.filter (fun a => a.enable)).length ≠ 0)
        (hns : ∀ a ∈ accounts.filter (fun a => a.enable),
            (a.auth_type_oauth && CodexTokenManager.isExpired now a) = false)
        (hdvd : (accounts.filter (fun a => a.enable)).length ∣ M)
        (hnd : (accounts.filter (fun a => a.enable)).Nodup),
        runCalls (fun accs i => CodexTokenManager.getToken refreshRes now (accs.length + 1) accs i)
            M accounts idx
          = ((List.range M).map (fun k =>
              TokenResult.ok ((accounts.filter (fun a => a.enable)).get
                ⟨(idx + k) % (accounts.filter (fun a => a.enable)).length,
                 Nat.mod_lt _ (Nat.pos_of_ne_zero hne)⟩)), idx + M) ∧
        (∀ j : Fin (accounts.filter (fun a => a.enable)).length,
          ((runCalls (fun accs i =>
              CodexTokenManager.getToken refreshRes now (accs.length + 1) accs i)
              M accounts idx).1).count
              (TokenResult.ok ((accounts.filter (fun a => a.enable)).get j))
            = M / (accounts.filter (fun a => a.enable)).length) ∧
        (∀ a, TokenResult.ok a ∈
            (runCalls (fun accs i =>
              CodexTokenManager.getToken refreshRes now (accs.length + 1) accs i)
              M accounts idx).1 → a.enable = true)) ∧
    (∀ (refreshRes : KiroAccount → Option KiroAccount) (now : Int)
        (M : Nat) (accounts : List KiroAccount) (idx : Nat)
        (hne : (accounts.filter (fun a => a.enable)).length ≠ 0)
        (hns : ∀ a ∈ accounts.filter (fun a => a.enable),
            KiroTokenManager.isExpired now a = false)
        (hdvd : (accounts.filter (fun a => a.enable)).length ∣ M)
        (hnd : (accounts.filter (fun a => a.enable)).Nodup),
        runCalls (fun accs i => KiroTokenManager.getToken refreshRes now (accs.length + 1) accs i)
            M accounts idx
          = ((List.range M).map (fun k =>
              TokenResult.ok ((accounts.filter (fun a => a.enable)).get
                ⟨(idx + k) % (accounts.filter (fun a => a.enable)).length,
                 Nat.mod_lt _ (Nat.pos_of_ne_zero hne)⟩)), idx + M) ∧
        (∀ j : Fin (accounts.filter (fun a => a.enable)).length,
          ((runCalls (fun accs i =>
              KiroTokenManager.getToken refreshRes now (accs.length + 1) accs i)
              M accounts idx).1).count
              (TokenResult.ok ((accounts.filter (fun a => a.enable)).get j))
            = M / (accounts.filter (fun a => a.enable)).length) ∧
        (∀ a, TokenResult.ok a ∈
            (runCalls (fun accs i =>
              KiroTokenManager.getToken refreshRes now (accs.length + 1) accs i)
              M accounts idx).1 → a.enable = true)) := by
  constructor
  · intro refreshRes now M accounts idx hne hns hdvd hnd
    simp only [CodexTokenManager.getToken]
    exact ⟨runCalls_rr_nonstale _ _ refreshRes M accounts idx hne hns,
      fun j => runCalls_rr_count _ _ refreshRes M accounts idx hne hns hdvd hnd j,
      runCalls_rr_enabled _ _ refreshRes M accounts idx hne hns⟩
  · intro refreshRes now M accounts idx hne hns hdvd hnd
    simp only [KiroTokenManager.getToken]
    exact ⟨runCalls_rr_nonstale _ _ refreshRes M accounts idx hne hns,
      fun j => runCalls_rr_count _ _ refreshRes M accounts idx hne hns hdvd hnd j,
      runCalls_rr_enabled _ _ refreshRes M accounts idx hne hns⟩

/-- Witness for C5: three Codex accounts of which the middle one is
disabled; six calls visit the two enabled accounts alternately, three
times each, never returning the disabled one. -/
theorem roundRobin_rotation_witness :
    (([(⟨1, true, 0, true⟩ : CodexAccount), ⟨2, true, 0, false⟩,
        ⟨3, true, 0, true⟩].filter (fun a => a.enable)).length ≠ 0 ∧
     ([(⟨1, true, 0, true⟩ : CodexAccount), ⟨2, true, 0, false⟩,
        ⟨3, true, 0, true⟩].filter (fun a => a.enable)).length ∣ 6) ∧
    runCalls (fun accs i => CodexTokenManager.getToken (fun _ => none) 0 (accs.length + 1) accs i)
        6 [⟨1, true, 0, true⟩, ⟨2, true, 0, false⟩, ⟨3, true, 0, true⟩] 0
      = ([.ok ⟨1, true, 0, true⟩, .ok ⟨3, true, 0, true⟩, .ok ⟨1, true, 0, true⟩,
          .ok ⟨3, true, 0, true⟩, .ok ⟨1, true, 0, true⟩, .ok ⟨3, true, 0, true⟩], 6) := by
  refine ⟨⟨by decide, by decide⟩, ?_⟩
  have h := (roundRobin_rotation.1 (fun _ => none) 0 6
    [⟨1, true, 0, true⟩, ⟨2, true, 0, false⟩, ⟨3, true, 0, true⟩] 0
    (by decide) (by decide) (by decide) (by decide)).1
  rw [h]
  decide

/-- A provider as seen by the dispatcher: name, enabled and initialized
flags, priority number (smaller = tried first) and supported-model
patterns. From `src/providers/base.js`. -/
structure Provider where
  name : String
  enabled : Bool
  initialized : Bool
  priority : Int
  supportedModels : List String
deriving DecidableEq, Repr

/-- Character-list prefix test; building block of the embeddings of the
JS `String.prototype.startsWith` / `endsWith` used by the dispatcher. -/
def charListPrefix : List Char → List Char → Bool
  | [], _ => true
  | _ :: _, [] => false
  | c :: cs, d :: ds => c == d && charListPrefix cs ds

/-- Embedding of JS `s.startsWith(pre)` (character-based). -/
def strStartsWith (s pre : String) : Bool :=
  charListPrefix pre.data s.data

/-- Embedding of JS `s.endsWith(post)` (character-based). -/
def strEndsWith (s post : String) : Bool :=
  charListPrefix post.data.reverse s.data.reverse

/-- Embedding of JS `s.slice(0, -n)`: drop the last `n` characters. -/
def strDropRight (s : String) (n : Nat) : String :=
  ⟨s.data.take (s.data.length - n)⟩

/-- `BaseProvider.supportsModel` (`base.js` lines 82-97): falsy model →
false; exact membership in `supportedModels`; else any trailing-wildcard
pattern (`"prefix*"`) whose stem prefixes the model. -/
def Provider.supportsModel (p : Provider) (model : String) : Bool :=
  if model = "" then false
  else if model ∈ p.supportedModels then true
  else p.supportedModels.any (fun pat =>
    strEndsWith pat "*" && strStartsWith model (strDropRight pat 1))

/-- Stable insertion by ascending priority (ties keep earlier elements
first), the embedding of the stable JS
`sort((a, b) => a.priority - b.priority)`. -/
def insertByPriority (p : Provider) : List Provider → List Provider
  | [] => [p]
  | q :: rest =>
      if p.priority < q.priority then p :: q :: rest else q :: insertByPriority p rest

/-- Stable sort by ascending priority. -/
def sortByPriority : List Provider → List Provider
  | [] => []
  | p :: rest => insertByPriority p (sortByPriority rest)

/-- The dispatcher's registry state: the registered providers (insertion
order) and the model→provider-names mapping (insertion order). From
`src/providers/index.js`. -/
structure ProviderManager where
  providers : List (String × Provider)
  modelProviderMapping : List (String × List String)
deriving DecidableEq, Repr

/-- `ProviderManager.getEnabledProviders` (`index.js` lines 58-62):
enabled and initialized providers sorted by ascending priority. -/
def ProviderManager.getEnabledProviders (st : ProviderManager) : List Provider :=
  sortByPriority ((st.providers.map (fun kv => kv.2)).filter
    (fun p => p.enabled && p.initialized))

/-- Try a mapping entry's provider names in order, accepting the first
registered, enabled and initialized one (`index.js` lines 137-142 and
150-155). -/
def firstUsable (st : ProviderManager) (names : List String) : Option Provider :=
  names.findSome? (fun n =>
    match alookup st.providers n with
    | some p => if p.enabled && p.initialized then some p else none
    | none => none)

/-- Step 1 of `selectProvider` (`index.js` lines 134-143): the exact
mapping entry for the model, if any, scanned for a usable provider. -/
def exactStep (st : ProviderManager) (model : String) : Option Provider :=
  match alookup st.modelProviderMapping model with
  | some names => firstUsable st names
  | none => none

/-- Step 2 of `selectProvider` (`index.js` lines 145-158): the mapping
entries scanned in insertion order; a trailing-wildcard pattern whose
stem prefixes the model contributes its first usable provider. -/
def wildcardStep (st : ProviderManager) (model : String) : Option Provider :=
  st.modelProviderMapping.findSome? (fun e =>
    if strEndsWith e.1 "*" && strStartsWith model (strDropRight e.1 1)
    then firstUsable st e.2 else none)

/-- Step 3 of `selectProvider` (`index.js` lines 160-166): the first
enabled+initialized provider, in ascending priority order, whose
`supportsModel` holds. -/
def scanStep (st : ProviderManager) (model : String) : Option Provider :=
  (st.getEnabledProviders).find? (fun p => p.supportsModel model)

/-- `ProviderManager.selectProvider` (`index.js` lines 131-175): falsy
model → null; else steps 1-3 in order, and as fallback the head of the
priority-sorted enabled list (null only when that list is empty). -/
def ProviderManager.selectProvider (st : ProviderManager) (model : String) : Option Provider :=
  if model = "" then none
  else
    match exactStep st model with
    | some p => some p
    | none =>
        match wildcardStep st model with
        | some p => some p
        | none =>
            match scanStep st model with
            | some p => some p
            | none => (st.getEnabledProviders).head?

/-- Stable priority insertion is a permutation-preserving cons. -/
theorem insertByPriority_perm (p : Provider) (l : List Provider) :
    (insertByPriority p l).Perm (p :: l) := by
  induction l with
  | nil => exact List.Perm.refl _
  | cons q rest ih =>
      unfold insertByPriority
      by_cases h : p.priority < q.priority
      · rw [if_pos h]
      · rw [if_neg h]
        exact ((ih.cons q).trans (List.Perm.swap p q rest))

/-- The sorted enabled list is a permutation of its input. -/
theorem sortByPriority_perm (l : List Provider) : (sortByPriority l).Perm l := by
  induction l with
  | nil => exact List.Perm.refl _
  | cons p rest ih =>
      unfold sortByPriority
      exact (insertByPriority_perm p (sortByPriority rest)).trans (ih.cons p)

/-- Priority insertion preserves sortedness. -/
theorem insertByPriority_pairwise (p : Provider) (l : List Provider)
    (h : l.Pairwise (fun a b => a.priority ≤ b.priority)) :
    (insertByPriority p l).Pairwise (fun a b => a.priority ≤ b.priority) := by
  induction l with
  | nil => exact List.pairwise_singleton _ _
  | cons q rest ih =>
      rcases List.pairwise_cons.mp h with ⟨hq, hrest⟩
      unfold insertByPriority
      by_cases hlt : p.priority < q.priority
      · rw [if_pos hlt]
        refine List.pairwise_cons.mpr ⟨?_, h⟩
        intro b hb
        rcases List.mem_cons.mp hb with hb1 | hb2
        · rw [hb1]; omega
        · have := hq _ hb2
          omega
      · rw [if_neg hlt]
        refine List.pairwise_cons.mpr ⟨?_, ih hrest⟩
        intro b hb
        have hmem := (insertByPriority_perm p rest).mem_iff.mp hb
        rcases List.mem_cons.mp hmem with hb1 | hb2
        · rw [hb1]; omega
        · exact hq _ hb2

/-- The sorted enabled list is sorted by ascending priority. -/
theorem sortByPriority_pairwise (l : List Provider) :
    (sortByPriority l).Pairwise (fun a b => a.priority ≤ b.priority) := by
  induction l with
  | nil => exact List.Pairwise.nil
  | cons p rest ih =>
      unfold sortByPriority
      exact insertByPriority_pairwise p (sortByPriority rest) ih

/-- A successful association-list lookup is a membership. -/
theorem alookup_mem {α : Type} (l : List (String × α)) (k : String) (v : α)
    (h : alookup l k = some v) : (k, v) ∈ l := by
  induction l with
  | nil => cases h
  | cons hd tl ih =>
      rcases hd with ⟨k0, v0⟩
      unfold alookup at h
      by_cases h0 : k0 = k
      · rw [if_pos h0] at h
        injection h with h
        rw [h0, h]
        exact List.mem_cons_self _ _
      · rw [if_neg h0] at h
        exact List.mem_cons_of_mem _ (ih h)

/-- When no provider is enabled+initialized, no mapping entry can yield
a usable provider. -/
theorem firstUsable_none_of_no_enabled (st : ProviderManager)
    (hemp : st.getEnabledProviders = []) (names : List String) :
    firstUsable st names = none := by
  have hfilt : (st.providers.map (fun kv => kv.2)).filter
      (fun p => p.enabled && p.initialized) = [] := by
    have hperm := sortByPriority_perm ((st.providers.map (fun kv => kv.2)).filter
      (fun p => p.enabled && p.initialized))
    rw [ProviderManager.getEnabledProviders] at hemp
    rw [hemp] at hperm
    exact (List.perm_nil.mp hperm.symm)
  have hno : ∀ p ∈ st.providers.map (fun kv => kv.2), ¬ (p.enabled && p.initialized) = true :=
    List.filter_eq_nil_iff.mp hfilt
  unfold firstUsable
  rw [List.findSome?_eq_none_iff]
  intro n _
  cases hlook : alookup st.providers n with
  | none => rfl
  | some p =>
      have hmem : p ∈ st.providers.map (fun kv => kv.2) :=
        List.mem_map.mpr ⟨(n, p), alookup_mem _ _ _ hlook, rfl⟩
      show (if (p.enabled && p.initialized) = true then some p else none) = none
      rw [if_neg (hno p hmem)]

/-- With no enabled provider the exact-mapping step yields nothing. -/
theorem exactStep_none_of_no_enabled (st : ProviderManager)
    (hemp : st.getEnabledProviders = []) (model : String) :
    exactStep st model = none := by
  unfold exactStep
  cases alookup st.modelProviderMapping model with
  | none => rfl
  | some names => exact firstUsable_none_of_no_enabled st hemp names

/-- With no enabled provider the wildcard step yields nothing. -/
theorem wildcardStep_none_of_no_enabled (st : ProviderManager)
    (hemp : st.getEnabledProviders = []) (model : String) :
    wildcardStep st model = none := by
  unfold wildcardStep
  rw [List.findSome?_eq_none_iff]
  intro e _
  by_cases hc : (strEndsWith e.1 "*" && strStartsWith model (strDropRight e.1 1)) = true
  · rw [if_pos hc]
    exact firstUsable_none_of_no_enabled st hemp e.2
  · rw [if_neg hc]

/-- With no enabled provider the capability scan yields nothing. -/
theorem scanStep_none_of_no_enabled (st : ProviderManager)
    (hemp : st.getEnabledProviders = []) (model : String) :
    scanStep st model = none := by
  unfold scanStep
  rw [hemp]
  rfl

/-- C6 as amended: for every *non-empty* model name `selectProvider`
follows the four rules in order — exact mapping entry (first enabled and
initialized listed provider), trailing-wildcard mapping entry,
capability scan of the enabled+initialized providers in ascending
priority-number order, and fallback to the head of that sorted list, so
a request is not rejected merely for an unrecognized model name — and
selection fails (`none`) exactly when the model name is empty (the
`if (!model) return null` guard, which the claim as stated misses) or no
enabled+initialized provider exists; the enabled list used by steps 3-4
is sorted by ascending priority number and is a permutation of the
registered enabled+initialized providers. -/
theorem selectProvider_algorithm :
    (∀ (st : ProviderManager) (model : String) (p : Provider),
        model ≠ "" → exactStep st model = some p →
        st.selectProvider model = some p) ∧
    (∀ (st : ProviderManager) (model : String) (p : Provider),
        model ≠ "" → exactStep st model = none →
        wildcardStep st model = some p → st.selectProvider model = some p) ∧
    (∀ (st : ProviderManager) (model : String) (p : Provider),
        model ≠ "" → exactStep st model = none → wildcardStep st model = none →
        scanStep st model = some p → st.selectProvider model = some p) ∧
    (∀ (st : ProviderManager) (model : String),
        model ≠ "" → exactStep st model = none → wildcardStep st model = none →
        scanStep st model = none →
        st.selectProvider model = (st.getEnabledProviders).head?) ∧
    (∀ (st : ProviderManager) (model : String),
        st.selectProvider model = none ↔
          (model = "" ∨ st.getEnabledProviders = [])) ∧
    (∀ st : ProviderManager,
        (st.getEnabledProviders).Pairwise (fun a b => a.priority ≤ b.priority) ∧
        (st.getEnabledProviders).Perm
          ((st.providers.map (fun kv => kv.2)).filter (fun p => p.enabled && p.initialized))) := by
  refine ⟨?_, ?_, ?_, ?_, ?_, ?_⟩
  · intro st model p hm hex
    unfold ProviderManager.selectProvider
    rw [if_neg hm, hex]
  · intro st model p hm hex hw
    unfold ProviderManager.selectProvider
    rw [if_neg hm, hex, hw]
  · intro st model p hm hex hw hs
    unfold ProviderManager.selectProvider
    rw [if_neg hm, hex, hw, hs]
  · intro st model hm hex hw hs
    unfold ProviderManager.selectProvider
    rw [if_neg hm, hex, hw, hs]
  · intro st model
    constructor
    · intro hnone
      by_cases hm : model = ""
      · exact Or.inl hm
      · refine Or.inr ?_
        by_contra hne
        unfold ProviderManager.selectProvider at hnone
        rw [if_neg hm] at hnone
        rcases hex : exactStep st model with _ | p
        · rcases hw : wildcardStep st model with _ | p
          · rcases hs : scanStep st model with _ | p
            · rw [hex, hw, hs] at hnone
              exact hne (List.head?_eq_none_iff.mp hnone)
            · rw [hex, hw, hs] at hnone
              cases hnone
          · rw [hex, hw] at hnone
            cases hnone
        · rw [hex] at hnone
          cases hnone
    · intro hc
      rcases hc with hm | hemp
      · unfold ProviderManager.selectProvider
        rw [if_pos hm]
      · unfold ProviderManager.selectProvider
        rw [exactStep_none_of_no_enabled st hemp model,
          wildcardStep_none_of_no_enabled st hemp model,
          scanStep_none_of_no_enabled st hemp model, hemp]
        by_cases hm : model = ""
        · rw [if_pos hm]
        · rw [if_neg hm]
          rfl
  · intro st
    exact ⟨sortByPriority_pairwise _, sortByPriority_perm _⟩

/-- Counterexample to C6 as stated: with one enabled, initialized
provider registered, `selectProvider("")` still returns `null` (the
`if (!model) return null` guard), so selection can fail even though an
enabled provider exists — the claim allowed failure only when no
enabled provider exists. -/
theorem selectProvider_empty_model_cex :
    (ProviderManager.mk [("p", ⟨"p", true, true, 1, ["m1"]⟩)] []).selectProvider "" = none ∧
    (ProviderManager.mk [("p", ⟨"p", true, true, 1, ["m1"]⟩)] []).getEnabledProviders
      = [⟨"p", true, true, 1, ["m1"]⟩] ∧
    (ProviderManager.mk [("p", ⟨"p", true, true, 1, ["m1"]⟩)] []).selectProvider "m1"
      = some ⟨"p", true, true, 1, ["m1"]⟩ := by
  decide

/-- Witness for C6's amended theorem: an unmapped, unsupported model
name falls back to the lowest-priority-number enabled provider rather
than being rejected. -/
theorem selectProvider_algorithm_witness :
    (("zzz" : String) ≠ "" ∧
     exactStep (ProviderManager.mk [("p", ⟨"p", true, true, 1, ["m1"]⟩)] []) "zzz" = none ∧
     wildcardStep (ProviderManager.mk [("p", ⟨"p", true, true, 1, ["m1"]⟩)] []) "zzz" = none ∧
     scanStep (ProviderManager.mk [("p", ⟨"p", true, true, 1, ["m1"]⟩)] []) "zzz" = none) ∧
    (ProviderManager.mk [("p", ⟨"p", true, true, 1, ["m1"]⟩)] []).selectProvider "zzz"
      = ((ProviderManager.mk [("p", ⟨"p", true, true, 1, ["m1"]⟩)] []).getEnabledProviders).head? :=
  ⟨⟨by decide, by decide, by decide, by decide⟩,
   selectProvider_algorithm.2.2.2.1
     (ProviderManager.mk [("p", ⟨"p", true, true, 1, ["m1"]⟩)] []) "zzz"
     (by decide) (by decide) (by decide) (by decide)⟩

/-- A tool call as delivered by the upstream adapter: the embedding
models the outcome of `JSON.parse` on the serialized `arguments` by the
field `argsValid` (no JSON grammar is modelled; the code only
distinguishes parse success from failure). -/
structure StreamToolCall where
  id : String
  name : String
  arguments : String
  argsValid : Bool
deriving DecidableEq, Repr

/-- One upstream callback payload of `generateAssistantResponse`
(`claude.js` lines 423-522): `data.type` is `usage`, `reasoning`,
`tool_calls`, or anything else (plain content). Signature passthrough
fields (`thoughtSignature` under `passSignatureToClient`) only decorate
payloads and never affect block structure; they are not modelled. -/
inductive UpstreamData : Type
  | usage (completionTokens : Int)
  | reasoning (text : String)
  | toolCalls (calls : List StreamToolCall)
  | content (text : String)
deriving DecidableEq, Repr

/-- A `tool_use` input: either the parsed arguments (carried as the raw
serialized form — `JSON.stringify(JSON.parse(args))` is modelled as the
identity on the serialized form) or the degraded empty object `{}`. -/
inductive ToolInput : Type
  | parsed (json : String)
  | emptyObj
deriving DecidableEq, Repr

/-- The `content_block` payload of a `content_block_start` event. -/
inductive BlockPayload : Type
  | thinking
  | text
  | toolUse (id : String) (name : String) (input : ToolInput)
deriving DecidableEq, Repr

/-- The payload of a `content_block_delta` event. -/
inductive DeltaPayload : Type
  | thinkingDelta (s : String)
  | textDelta (s : String)
  | inputJsonDelta (s : String)
deriving DecidableEq, Repr

/-- The Claude SSE events written by the streaming path of
`handleClaudeRequest`. -/
inductive ClaudeEvent : Type
  | messageStart
  | contentBlockStart (index : Nat) (block : BlockPayload)
  | contentBlockDelta (index : Nat) (delta : DeltaPayload)
  | contentBlockStop (index : Nat)
  | messageDelta (stopReason : String) (outputTokens : Int)
  | messageStop
deriving DecidableEq, Repr

/-- The `currentBlockType` values of the streaming state machine. -/
inductive BlockType : Type
  | thinking
  | text
deriving DecidableEq, Repr

/-- The mutable locals of the streaming callback (`claude.js`
lines 362-366). -/
structure StreamState where
  contentIndex : Nat
  currentBlockType : Option BlockType
  reasoningSent : Bool
  hasToolCall : Bool
  usageData : Option Int
deriving DecidableEq, Repr

def initialStreamState : StreamState := ⟨0, none, false, false, none⟩

/-- The tool-call loop of the streaming callback (`claude.js`
lines 463-493): each call whose arguments parse emits
`content_block_start` / `input_json_delta` / `content_block_stop` at the
current index and advances it; a call whose arguments fail to parse is
skipped entirely (the `catch` falls through without emitting and without
advancing the index). Returns the emitted events and the index after the
loop. -/
def toolCallEvents (idxStart : Nat) : List StreamToolCall → List ClaudeEvent × Nat
  | [] => ([], idxStart)
  | tc :: rest =>
      if tc.argsValid then
        let r := toolCallEvents (idxStart + 1) rest
        ([ClaudeEvent.contentBlockStart idxStart (.toolUse tc.id tc.name (.parsed tc.arguments)),
          ClaudeEvent.contentBlockDelta idxStart (.inputJsonDelta tc.arguments),
          ClaudeEvent.contentBlockStop idxStart] ++ r.1, r.2)
      else toolCallEvents idxStart rest

/-- One step of the streaming callback (`claude.js` lines 423-522):
given the machine state and one upstream payload, the new state and the
events written. -/
def claudeStreamStep (st : StreamState) (data : UpstreamData) :
    StreamState × List ClaudeEvent :=
  match data with
  | .usage u => ({ st with usageData := some u }, [])
  | .reasoning s =>
      if st.reasoningSent = false then
        ({ st with currentBlockType := some .thinking, reasoningSent := true },
         [ClaudeEvent.contentBlockStart st.contentIndex .thinking,
          ClaudeEvent.contentBlockDelta st.contentIndex (.thinkingDelta s)])
      else (st, [ClaudeEvent.contentBlockDelta st.contentIndex (.thinkingDelta s)])
  | .toolCalls calls =>
      let closing :=
        match st.currentBlockType with
        | some _ => ([ClaudeEvent.contentBlockStop st.contentIndex], st.contentIndex + 1)
        | none => ([], st.contentIndex)
      let r := toolCallEvents closing.2 calls
      ({ st with contentIndex := r.2, currentBlockType := none, hasToolCall := true },
       closing.1 ++ r.1)
  | .content s =>
      let closing :=
        match st.currentBlockType with
        | some .thinking =>
            ([ClaudeEvent.contentBlockStop st.contentIndex], st.contentIndex + 1,
             (none : Option BlockType))
        | cbt => ([], st.contentIndex, cbt)
      let opening :=
        if closing.2.2 ≠ some BlockType.text then
          ([ClaudeEvent.contentBlockStart closing.2.1 .text], some BlockType.text)
        else ([], closing.2.2)
      ({ st with contentIndex := closing.2.1, currentBlockType := opening.2 },
       closing.1 ++ opening.1 ++
         [ClaudeEvent.contentBlockDelta closing.2.1 (.textDelta s)])

/-- The streaming callback folded over the whole upstream sequence. -/
def claudeStreamLoop : StreamState → List UpstreamData → StreamState × List ClaudeEvent
  | st, [] => (st, [])
  | st, d :: rest =>
      let r1 := claudeStreamStep st d
      let r2 := claudeStreamLoop r1.1 rest
      (r2.1, r1.2 ++ r2.2)

/-- The full Claude streaming output of `handleClaudeRequest` for the
non-image path (`claude.js` lines 369-546): `message_start`, the
callback's events, the close of a still-open block, then
`message_delta` (stop reason `tool_use` iff a tool call occurred, output
tokens from the last usage payload) and `message_stop`. -/
def claudeStreamEvents (events : List UpstreamData) : List ClaudeEvent :=
  let r := claudeStreamLoop initialStreamState events
  ClaudeEvent.messageStart ::
    (r.2 ++
     (match r.1.currentBlockType with
      | some _ => [ClaudeEvent.contentBlockStop r.1.contentIndex]
      | none => []) ++
     [ClaudeEvent.messageDelta (if r.1.hasToolCall then "tool_use" else "end_turn")
        (r.1.usageData.getD 0),
      ClaudeEvent.messageStop])

/-- Block-lifecycle checker: scans an event list tracking the expected
next block index and the currently open block index. A
`content_block_start` is legal only when no block is open and its index
is the expected one (zero-based, monotonically increasing); a
`content_block_stop` only closes the open block. `none` marks a
violation — in particular two `content_block_start` events at the same
index with no intervening `content_block_stop`. -/
def blockStep : Option (Nat × Option Nat) → ClaudeEvent → Option (Nat × Option Nat)
  | none, _ => none
  | some s, .contentBlockStart i _ =>
      if s.2 = none ∧ i = s.1 then some (s.1, some i) else none
  | some s, .contentBlockStop i =>
      if s.2 = some i then some (i + 1, none) else none
  | some s, _ => some s

/-- An event list satisfies the block discipline when the scan never
hits a violation. -/
def discipline (l : List ClaudeEvent) : Bool :=
  (l.foldl blockStep (some (0, none))).isSome

/-- Input-side safety scan: tracks whether a text block is open
(`content` opens one, `tool_calls` closes it) and whether a reasoning
payload was seen; the first reasoning payload arriving while a text
block is open is the unsafe pattern. -/
def safeScan : Bool → Bool → List UpstreamData → Bool
  | _, _, [] => true
  | textOpen, sawReasoning, d :: rest =>
      match d with
      | .usage _ => safeScan textOpen sawReasoning rest
      | .content _ => safeScan true sawReasoning rest
      | .toolCalls _ => safeScan false sawReasoning rest
      | .reasoning _ =>
          if sawReasoning = false ∧ textOpen = true then false
          else safeScan textOpen true rest

/-- An upstream sequence is safe when its first reasoning payload does
not arrive while a text block is open. -/
def safeInput (events : List UpstreamData) : Bool := safeScan false false events

/-- The checker state corresponding to a machine state: next index =
`contentIndex`, and a block is open at `contentIndex` iff
`currentBlockType` is set. -/
def disciplineState (st : StreamState) : Option (Nat × Option Nat) :=
  some (st.contentIndex,
    match st.currentBlockType with
    | some _ => some st.contentIndex
    | none => none)

/-- The tool-call loop emits a discipline-respecting event run: from a
closed state at index `i` it ends closed at the final index. -/
theorem toolCallEvents_discipline (calls : List StreamToolCall) :
    ∀ i : Nat,
      List.foldl blockStep (some (i, none)) (toolCallEvents i calls).1
        = some ((toolCallEvents i calls).2, none) := by
  induction calls with
  | nil => intro i; rfl
  | cons tc rest ih =>
      intro i
      unfold toolCallEvents
      by_cases hv : tc.argsValid = true
      · rw [if_pos hv]
        dsimp only
        rw [List.foldl_append]
        have hpre : List.foldl blockStep (some (i, none))
            [ClaudeEvent.contentBlockStart i
               (BlockPayload.toolUse tc.id tc.name (ToolInput.parsed tc.arguments)),
             ClaudeEvent.contentBlockDelta i (DeltaPayload.inputJsonDelta tc.arguments),
             ClaudeEvent.contentBlockStop i] = some (i + 1, none) := by
          simp [List.foldl_cons, List.foldl_nil, blockStep]
        rw [hpre]
        exact ih (i + 1)
      · rw [if_neg hv]
        exact ih i

/-- A legal `content_block_start` at the expected index. -/
theorem blockStep_start_ok (i : Nat) (b : BlockPayload) :
    blockStep (some (i, none)) (.contentBlockStart i b) = some (i, some i) := by
  unfold blockStep
  dsimp only
  rw [if_pos ⟨rfl, rfl⟩]

/-- A legal `content_block_stop` of the open block. -/
theorem blockStep_stop_ok (nxt i : Nat) :
    blockStep (some (nxt, some i)) (.contentBlockStop i) = some (i + 1, none) := by
  unfold blockStep
  dsimp only
  rw [if_pos rfl]

/-- Machine invariant: a thinking block can only be open after the first
reasoning payload was handled. -/
def StreamInv (st : StreamState) : Prop :=
  st.currentBlockType = some BlockType.thinking → st.reasoningSent = true

/-- Main invariant: over a safe upstream suffix, the events emitted by
the callback drive the block checker from the state's abstraction to the
final state's abstraction — no violation occurs. -/
theorem claudeStreamLoop_discipline (events : List UpstreamData) :
    ∀ st : StreamState, StreamInv st →
      safeScan (decide (st.currentBlockType = some BlockType.text)) st.reasoningSent events
        = true →
      List.foldl blockStep (disciplineState st) (claudeStreamLoop st events).2
        = disciplineState (claudeStreamLoop st events).1 := by
  induction events with
  | nil => intro st _ _; rfl
  | cons d rest ih =>
      intro st hinv hsafe
      obtain ⟨idx, cbt, rs, htc, ud⟩ := st
      unfold claudeStreamLoop
      dsimp only
      rw [List.foldl_append]
      cases d with
      | usage u =>
          have hA : List.foldl blockStep (disciplineState ⟨idx, cbt, rs, htc, ud⟩)
              ((claudeStreamStep ⟨idx, cbt, rs, htc, ud⟩ (.usage u)).2)
              = disciplineState ((claudeStreamStep ⟨idx, cbt, rs, htc, ud⟩ (.usage u)).1) := rfl
          rw [hA]
          exact ih _ hinv hsafe
      | reasoning s =>
          cases rs with
          | true =>
              have hA : List.foldl blockStep (disciplineState ⟨idx, cbt, true, htc, ud⟩)
                  ((claudeStreamStep ⟨idx, cbt, true, htc, ud⟩ (.reasoning s)).2)
                  = disciplineState
                      ((claudeStreamStep ⟨idx, cbt, true, htc, ud⟩ (.reasoning s)).1) := rfl
              rw [hA]
              exact ih _ hinv hsafe
          | false =>
              cases cbt with
              | none =>
                  have hA : List.foldl blockStep (disciplineState ⟨idx, none, false, htc, ud⟩)
                      ((claudeStreamStep ⟨idx, none, false, htc, ud⟩ (.reasoning s)).2)
                      = disciplineState
                          ((claudeStreamStep ⟨idx, none, false, htc, ud⟩ (.reasoning s)).1) := by
                    show List.foldl blockStep (some (idx, none))
                        [ClaudeEvent.contentBlockStart idx .thinking,
                         ClaudeEvent.contentBlockDelta idx (.thinkingDelta s)]
                        = some (idx, some idx)
                    rw [List.foldl_cons, blockStep_start_ok, List.foldl_cons]
                    rfl
                  rw [hA]
                  refine ih _ ?_ ?_
                  · intro _; rfl
                  · exact hsafe
              | some bt =>
                  cases bt with
                  | thinking => exact Bool.noConfusion (hinv rfl)
                  | text => simp [safeScan] at hsafe
      | toolCalls calls =>
          cases cbt with
          | none =>
              have hA : List.foldl blockStep (disciplineState ⟨idx, none, rs, htc, ud⟩)
                  ((claudeStreamStep ⟨idx, none, rs, htc, ud⟩ (.toolCalls calls)).2)
                  = disciplineState
                      ((claudeStreamStep ⟨idx, none, rs, htc, ud⟩ (.toolCalls calls)).1) := by
                show List.foldl blockStep (some (idx, none)) (toolCallEvents idx calls).1
                    = some ((toolCallEvents idx calls).2, none)
                exact toolCallEvents_discipline calls idx
              rw [hA]
              refine ih _ ?_ ?_
              · intro h; cases h
              · exact hsafe
          | some bt =>
              have hA : List.foldl blockStep (disciplineState ⟨idx, some bt, rs, htc, ud⟩)
                  ((claudeStreamStep ⟨idx, some bt, rs, htc, ud⟩ (.toolCalls calls)).2)
                  = disciplineState
                      ((claudeStreamStep ⟨idx, some bt, rs, htc, ud⟩ (.toolCalls calls)).1) := by
                show List.foldl blockStep (some (idx, some idx))
                    (ClaudeEvent.contentBlockStop idx :: (toolCallEvents (idx + 1) calls).1)
                    = some ((toolCallEvents (idx + 1) calls).2, none)
                rw [List.foldl_cons, blockStep_stop_ok]
                exact toolCallEvents_discipline calls (idx + 1)
              rw [hA]
              refine ih _ ?_ ?_
              · intro h; cases h
              · exact hsafe
      | content s =>
          cases cbt with
          | none =>
              have hA : List.foldl blockStep (disciplineState ⟨idx, none, rs, htc, ud⟩)
                  ((claudeStreamStep ⟨idx, none, rs, htc, ud⟩ (.content s)).2)
                  = disciplineState
                      ((claudeStreamStep ⟨idx, none, rs, htc, ud⟩ (.content s)).1) := by
                show List.foldl blockStep (some (idx, none))
                    [ClaudeEvent.contentBlockStart idx .text,
                     ClaudeEvent.contentBlockDelta idx (.textDelta s)]
                    = some (idx, some idx)
                rw [List.foldl_cons, blockStep_start_ok, List.foldl_cons]
                rfl
              rw [hA]
              refine ih _ ?_ ?_
              · intro h; cases h
              · exact hsafe
          | some bt =>
              cases bt with
              | thinking =>
                  have hA : List.foldl blockStep
                      (disciplineState ⟨idx, some .thinking, rs, htc, ud⟩)
                      ((claudeStreamStep ⟨idx, some .thinking, rs, htc, ud⟩ (.content s)).2)
                      = disciplineState
                          ((claudeStreamStep ⟨idx, some .thinking, rs, htc, ud⟩ (.content s)).1) := by
                    show List.foldl blockStep (some (idx, some idx))
                        [ClaudeEvent.contentBlockStop idx,
                         ClaudeEvent.contentBlockStart (idx + 1) .text,
                         ClaudeEvent.contentBlockDelta (idx + 1) (.textDelta s)]
                        = some (idx + 1, some (idx + 1))
                    rw [List.foldl_cons, blockStep_stop_ok, List.foldl_cons,
                      blockStep_start_ok, List.foldl_cons]
                    rfl
                  rw [hA]
                  refine ih _ ?_ ?_
                  · intro h; cases h
                  · exact hsafe
              | text =>
                  have hA : List.foldl blockStep
                      (disciplineState ⟨idx, some .text, rs, htc, ud⟩)
                      ((claudeStreamStep ⟨idx, some .text, rs, htc, ud⟩ (.content s)).2)
                      = disciplineState
                          ((claudeStreamStep ⟨idx, some .text, rs, htc, ud⟩ (.content s)).1) := rfl
                  rw [hA]
                  refine ih _ ?_ ?_
                  · intro h; cases h
                  · exact hsafe

/-- C7 as amended: for every upstream event sequence in which the first
reasoning delta does not arrive while a text block is open (`safeInput`;
in particular every reasoning→text→tool-call ordering), the Claude
streaming output satisfies the block discipline: no two
`content_block_start` events at the same index without an intervening
`content_block_stop`, each open block closed before the next opens, and
zero-based monotonically increasing indices. -/
theorem blockDiscipline_safe (events : List UpstreamData)
    (h : safeInput events = true) :
    discipline (claudeStreamEvents events) = true := by
  unfold discipline claudeStreamEvents
  dsimp only
  rw [List.foldl_cons]
  have h0 : blockStep (some (0, none)) ClaudeEvent.messageStart = some (0, none) := rfl
  rw [h0, List.foldl_append, List.foldl_append]
  have hmain : List.foldl blockStep (some (0, none))
      (claudeStreamLoop initialStreamState events).2
      = disciplineState (claudeStreamLoop initialStreamState events).1 :=
    claudeStreamLoop_discipline events initialStreamState (fun hc => by cases hc) h
  rw [hmain]
  unfold disciplineState
  rcases hcbt : (claudeStreamLoop initialStreamState events).1.currentBlockType with _ | bt
  · rfl
  · dsimp only
    have hstop : List.foldl blockStep
        (some ((claudeStreamLoop initialStreamState events).1.contentIndex,
          some (claudeStreamLoop initialStreamState events).1.contentIndex))
        [ClaudeEvent.contentBlockStop (claudeStreamLoop initialStreamState events).1.contentIndex]
        = some ((claudeStreamLoop initialStreamState events).1.contentIndex + 1, none) := by
      rw [List.foldl_cons, blockStep_stop_ok]
      rfl
    rw [hstop]
    rfl

/-- Counterexample to C7 as stated: a text delta followed by the first
reasoning delta makes the code emit a second `content_block_start` at
index 0 with no intervening `content_block_stop` for index 0 — the
reasoning branch never closes an open text block. -/
theorem blockDiscipline_cex :
    claudeStreamEvents [.content "a", .reasoning "r"]
      = [.messageStart,
         .contentBlockStart 0 .text,
         .contentBlockDelta 0 (.textDelta "a"),
         .contentBlockStart 0 .thinking,
         .contentBlockDelta 0 (.thinkingDelta "r"),
         .contentBlockStop 0,
         .messageDelta "end_turn" 0,
         .messageStop] ∧
    discipline (claudeStreamEvents [.content "a", .reasoning "r"]) = false := by
  decide

/-- Witness for C7's amended theorem: the spec's
reasoning→text→tool-call sequence is safe and its output satisfies the
block discipline. -/
theorem blockDiscipline_safe_witness :
    safeInput [UpstreamData.reasoning "r", .content "a",
        .toolCalls [⟨"t1", "f", "\x7b\x7d", true⟩]] = true ∧
    discipline (claudeStreamEvents [UpstreamData.reasoning "r", .content "a",
        .toolCalls [⟨"t1", "f", "\x7b\x7d", true⟩]]) = true :=
  ⟨by decide,
   blockDiscipline_safe [UpstreamData.reasoning "r", .content "a",
     .toolCalls [⟨"t1", "f", "\x7b\x7d", true⟩]] (by decide)⟩

/-- A content block of the non-streaming Claude response. -/
inductive RespBlock : Type
  | thinking (text : String)
  | text (t : String)
  | toolUse (id : String) (name : String) (input : ToolInput)
deriving DecidableEq, Repr

/-- The non-streaming Claude response shape (`createClaudeResponse`'s
return object; `usage` mapped to input/output token counts). -/
structure ClaudeResponse where
  id : String
  blocks : List RespBlock
  model : String
  stopReason : String
  inputTokens : Int
  outputTokens : Int
deriving DecidableEq, Repr

/-- The per-tool-call block of `createClaudeResponse` (`claude.js`
lines 234-257): parse success yields the parsed input, parse failure
degrades to the empty object (`catch` pushes `input: {}`). -/
def toolUseBlock (tc : StreamToolCall) : RespBlock :=
  if tc.argsValid then .toolUse tc.id tc.name (.parsed tc.arguments)
  else .toolUse tc.id tc.name .emptyObj

/-- `createClaudeResponse` (`claude.js` lines 210-272): optional
thinking block (truthy reasoning), optional text block (truthy content),
then one `tool_use` block per tool call — degraded, never dropped, on
malformed arguments. `""` models a falsy (`null`/empty) content or
reasoning value. -/
def createClaudeResponse (id model : String) (content reasoning : String)
    (toolCalls : List StreamToolCall) (stopReason : String)
    (usage : Option (Int × Int)) : ClaudeResponse :=
  ⟨id,
   (if reasoning ≠ "" then [RespBlock.thinking reasoning] else []) ++
     (if content ≠ "" then [RespBlock.text content] else []) ++
     toolCalls.map toolUseBlock,
   model, stopReason,
   (usage.map (fun u => u.1)).getD 0, (usage.map (fun u => u.2)).getD 0⟩

/-- Every `tool_use` block started by the streaming tool-call loop
carries parsed arguments (malformed calls emit nothing). -/
theorem toolCallEvents_starts (calls : List StreamToolCall) :
    ∀ (i : Nat) (e : ClaudeEvent), e ∈ (toolCallEvents i calls).1 →
      ∀ (j : Nat) (idt nm : String) (inp : ToolInput),
        e = ClaudeEvent.contentBlockStart j (.toolUse idt nm inp) →
        ∃ s, inp = ToolInput.parsed s := by
  induction calls with
  | nil => intro i e he; cases he
  | cons tc rest ih =>
      intro i e he j idt nm inp heq
      unfold toolCallEvents at he
      by_cases hv : tc.argsValid = true
      · rw [if_pos hv] at he
        dsimp only at he
        rw [heq] at he
        rcases List.mem_append.mp he with h3 | hrest
        · simp only [List.mem_cons, List.not_mem_nil, or_false] at h3
          rcases h3 with h3 | h3 | h3
          · injection h3 with hj hb
            injection hb with h1 h2 h3b
            exact ⟨tc.arguments, h3b⟩
          · exact ClaudeEvent.noConfusion h3
          · exact ClaudeEvent.noConfusion h3
        · exact ih (i + 1) _ hrest j idt nm inp rfl
      · rw [if_neg hv] at he
        exact ih i e he j idt nm inp heq

/-- Every `tool_use` block started by one callback step carries parsed
arguments. -/
theorem claudeStreamStep_starts (st : StreamState) (d : UpstreamData) :
    ∀ e ∈ (claudeStreamStep st d).2,
      ∀ (j : Nat) (idt nm : String) (inp : ToolInput),
        e = ClaudeEvent.contentBlockStart j (.toolUse idt nm inp) →
        ∃ s, inp = ToolInput.parsed s := by
  obtain ⟨idx, cbt, rs, htc, ud⟩ := st
  intro e he j idt nm inp heq
  rw [heq] at he
  cases d with
  | usage u => cases he
  | reasoning s =>
      cases rs with
      | false =>
          have h2 : (claudeStreamStep ⟨idx, cbt, false, htc, ud⟩ (.reasoning s)).2
              = [ClaudeEvent.contentBlockStart idx .thinking,
                 ClaudeEvent.contentBlockDelta idx (.thinkingDelta s)] := rfl
          rw [h2] at he
          simp only [List.mem_cons, List.not_mem_nil, or_false] at he
          rcases he with h | h
          · injection h with hj hb
            exact BlockPayload.noConfusion hb
          · exact ClaudeEvent.noConfusion h
      | true =>
          have h2 : (claudeStreamStep ⟨idx, cbt, true, htc, ud⟩ (.reasoning s)).2
              = [ClaudeEvent.contentBlockDelta idx (.thinkingDelta s)] := rfl
          rw [h2] at he
          simp only [List.mem_cons, List.not_mem_nil, or_false] at he
          exact ClaudeEvent.noConfusion he
  | toolCalls calls =>
      cases cbt with
      | none =>
          have h2 : (claudeStreamStep ⟨idx, none, rs, htc, ud⟩ (.toolCalls calls)).2
              = (toolCallEvents idx calls).1 := rfl
          rw [h2] at he
          exact toolCallEvents_starts calls idx _ he j idt nm inp rfl
      | some bt =>
          have h2 : (claudeStreamStep ⟨idx, some bt, rs, htc, ud⟩ (.toolCalls calls)).2
              = ClaudeEvent.contentBlockStop idx :: (toolCallEvents (idx + 1) calls).1 := rfl
          rw [h2] at he
          rcases List.mem_cons.mp he with h | hrest
          · exact ClaudeEvent.noConfusion h
          · exact toolCallEvents_starts calls (idx + 1) _ hrest j idt nm inp rfl
  | content s =>
      cases cbt with
      | none =>
          have h2 : (claudeStreamStep ⟨idx, none, rs, htc, ud⟩ (.content s)).2
              = [ClaudeEvent.contentBlockStart idx .text,
                 ClaudeEvent.contentBlockDelta idx (.textDelta s)] := rfl
          rw [h2] at he
          simp only [List.mem_cons, List.not_mem_nil, or_false] at he
          rcases he with h | h
          · injection h with hj hb
            exact BlockPayload.noConfusion hb
          · exact ClaudeEvent.noConfusion h
      | some bt =>
          cases bt with
          | thinking =>
              have h2 : (claudeStreamStep ⟨idx, some .thinking, rs, htc, ud⟩ (.content s)).2
                  = [ClaudeEvent.contentBlockStop idx,
                     ClaudeEvent.contentBlockStart (idx + 1) .text,
                     ClaudeEvent.contentBlockDelta (idx + 1) (.textDelta s)] := rfl
              rw [h2] at he
              simp only [List.mem_cons, List.not_mem_nil, or_false] at he
              rcases he with h | h | h
              · exact ClaudeEvent.noConfusion h
              · injection h with hj hb
                exact BlockPayload.noConfusion hb
              · exact ClaudeEvent.noConfusion h
          | text =>
              have h2 : (claudeStreamStep ⟨idx, some .text, rs, htc, ud⟩ (.content s)).2
                  = [ClaudeEvent.contentBlockDelta idx (.textDelta s)] := rfl
              rw [h2] at he
              simp only [List.mem_cons, List.not_mem_nil, or_false] at he
              exact ClaudeEvent.noConfusion he

/-- Every `tool_use` block started anywhere in the callback's output
carries parsed arguments. -/
theorem claudeStreamLoop_starts (events : List UpstreamData) :
    ∀ (st : StreamState) (e : ClaudeEvent), e ∈ (claudeStreamLoop st events).2 →
      ∀ (j : Nat) (idt nm : String) (inp : ToolInput),
        e = ClaudeEvent.contentBlockStart j (.toolUse idt nm inp) →
        ∃ s, inp = ToolInput.parsed s := by
  induction events with
  | nil => intro st e he; cases he
  | cons d rest ih =>
      intro st e he j idt nm inp heq
      unfold claudeStreamLoop at he
      dsimp only at he
      rcases List.mem_append.mp he with h1 | h2
      · exact claudeStreamStep_starts st d e h1 j idt nm inp heq
      · exact ih _ e h2 j idt nm inp heq

/-- C8 as amended: a tool call whose serialized arguments are not valid
JSON degrades to an `input: {}` block in the *non-streaming* Claude
response path (and every tool call, valid or not, still contributes its
block — the response is never failed wholesale); in the *streaming*
path, however, the malformed tool call's block is skipped entirely —
every `tool_use` `content_block_start` ever emitted carries successfully
parsed arguments — while the rest of the stream is still produced
(`message_delta` and `message_stop` always close the stream). -/
theorem malformed_toolcall_degradation :
    (∀ (id model content reasoning : String) (toolCalls : List StreamToolCall)
        (stopReason : String) (usage : Option (Int × Int)) (tc : StreamToolCall),
        tc ∈ toolCalls → tc.argsValid = false →
        RespBlock.toolUse tc.id tc.name .emptyObj
          ∈ (createClaudeResponse id model content reasoning toolCalls stopReason usage).blocks) ∧
    (∀ (id model content reasoning : String) (toolCalls : List StreamToolCall)
        (stopReason : String) (usage : Option (Int × Int)) (tc : StreamToolCall),
        tc ∈ toolCalls →
        toolUseBlock tc
          ∈ (createClaudeResponse id model content reasoning toolCalls stopReason usage).blocks) ∧
    (∀ (events : List UpstreamData) (j : Nat) (idt nm : String) (inp : ToolInput),
        ClaudeEvent.contentBlockStart j (.toolUse idt nm inp) ∈ claudeStreamEvents events →
        ∃ s, inp = ToolInput.parsed s) ∧
    (∀ events : List UpstreamData, ∃ (l : List ClaudeEvent) (r : String) (u : Int),
        claudeStreamEvents events
          = ClaudeEvent.messageStart ::
              (l ++ [ClaudeEvent.messageDelta r u, ClaudeEvent.messageStop])) := by
  refine ⟨?_, ?_, ?_, ?_⟩
  · intro id model content reasoning toolCalls stopReason usage tc htc hv
    have hblock : toolUseBlock tc = RespBlock.toolUse tc.id tc.name .emptyObj := by
      unfold toolUseBlock
      rw [hv]
      rfl
    unfold createClaudeResponse
    dsimp only
    exact List.mem_append.mpr (Or.inr (List.mem_map.mpr ⟨tc, htc, hblock⟩))
  · intro id model content reasoning toolCalls stopReason usage tc htc
    unfold createClaudeResponse
    dsimp only
    exact List.mem_append.mpr (Or.inr (List.mem_map.mpr ⟨tc, htc, rfl⟩))
  · intro events j idt nm inp he
    unfold claudeStreamEvents at he
    dsimp only at he
    rcases List.mem_cons.mp he with h | he2
    · exact ClaudeEvent.noConfusion h
    · rcases List.mem_append.mp he2 with h3 | h4
      · rcases List.mem_append.mp h3 with h5 | h6
        · exact claudeStreamLoop_starts events initialStreamState _ h5 j idt nm inp rfl
        · cases hcbt : (claudeStreamLoop initialStreamState events).1.currentBlockType with
          | none =>
              rw [hcbt] at h6
              cases h6
          | some bt =>
              rw [hcbt] at h6
              simp only [List.mem_cons, List.not_mem_nil, or_false] at h6
              exact ClaudeEvent.noConfusion h6
      · simp only [List.mem_cons, List.not_mem_nil, or_false] at h4
        rcases h4 with h | h
        · exact ClaudeEvent.noConfusion h
        · exact ClaudeEvent.noConfusion h
  · intro events
    unfold claudeStreamEvents
    dsimp only
    exact ⟨_, _, _, rfl⟩

/-- Counterexample to C8 as stated: in the streaming path a tool call
with malformed arguments does not degrade to an `input: {}` block — it
is skipped entirely (`catch` at `claude.js` line 490: "parse failure,
skip"). The whole stream for a single malformed tool call carries no
`content_block_start` at all (while the non-streaming path for the same
call does emit the degraded block). -/
theorem streaming_malformed_toolcall_skipped_cex :
    claudeStreamEvents [.toolCalls [⟨"t1", "f", "oops", false⟩]]
      = [.messageStart, .messageDelta "tool_use" 0, .messageStop] ∧
    (claudeStreamEvents [.toolCalls [⟨"t1", "f", "oops", false⟩]]).all
      (fun e => match e with
        | .contentBlockStart _ _ => false
        | _ => true) = true ∧
    (createClaudeResponse "m1" "M" "" "" [⟨"t1", "f", "oops", false⟩] "tool_use" none).blocks
      = [.toolUse "t1" "f" .emptyObj] := by
  decide

/-- Witness for C8's amended theorem: the single malformed tool call
contributes the degraded `input: {}` block to the non-streaming
response. -/
theorem malformed_toolcall_degradation_witness :
    ((⟨"t1", "f", "oops", false⟩ : StreamToolCall)
        ∈ [(⟨"t1", "f", "oops", false⟩ : StreamToolCall)] ∧
     (⟨"t1", "f", "oops", false⟩ : StreamToolCall).argsValid = false) ∧
    RespBlock.toolUse "t1" "f" .emptyObj
      ∈ (createClaudeResponse "m1" "M" "" "" [⟨"t1", "f", "oops", false⟩]
          "tool_use" none).blocks :=
  ⟨⟨by decide, by decide⟩,
   malformed_toolcall_degradation.1 "m1" "M" "" "" [⟨"t1", "f", "oops", false⟩]
     "tool_use" none ⟨"t1", "f", "oops", false⟩ (by decide) (by decide)⟩
